import Mathlib

/-!
Verification development for NMP.py ("Neil's Manual Proxy"), a file-based
HTTP proxy.  The Python source is embedded shallowly: byte strings are
`List Nat` (each entry < 256), Python `str` is Lean `String`, JSON values
are the inductive `NMP.Json` below, and the file-system stores are explicit
state records.  JSON numbers are modelled as exact decimals `m * 10 ^ e`
(integer mantissa and exponent); the non-standard `NaN`/`Infinity`
extension of the Python parser and lone surrogates in `\u` escapes are
outside the model.
-/

namespace NMP

/-- JSON values as produced by `json.loads` / consumed by `json.dumps`:
`num m e` denotes the decimal `m * 10 ^ e`; objects are ordered key/value
lists (Python dicts keep insertion order). -/
inductive Json where
| null : Json
| bool (b : Bool) : Json
| num (m : Int) (e : Int) : Json
| str (s : String) : Json
| arr (xs : List Json) : Json
| obj (kvs : List (String × Json)) : Json
deriving Repr, Inhabited

/-- Decimal digits of a natural number, most significant first. -/
def natChars (n : Nat) : List Char :=
  if n < 10 then [Char.ofNat (48 + n)]
  else natChars (n / 10) ++ [Char.ofNat (48 + n % 10)]
decreasing_by exact Nat.div_lt_self (by omega) (by omega)

/-- Decimal rendering of an integer (minus sign plus digits). -/
def intChars (i : Int) : List Char :=
  if i < 0 then '-' :: natChars i.natAbs else natChars i.natAbs

/-- Lowercase hexadecimal digit for `d < 16`. -/
def hexDigitChar (d : Nat) : Char :=
  Char.ofNat (if d < 10 then 48 + d else 87 + d)

/-- Four lowercase hex digits, as in Python `'\\u%04x'` escapes. -/
def hex4 (n : Nat) : List Char :=
  [hexDigitChar (n / 4096 % 16), hexDigitChar (n / 256 % 16),
   hexDigitChar (n / 16 % 16), hexDigitChar (n % 16)]

/-- Escape one character the way `json.dumps` (default `ensure_ascii=True`)
does: printable ASCII other than quote and backslash is literal, the five
short escapes are used for their control characters, every other BMP
character becomes `\\uXXXX`, and astral characters become a surrogate
pair. -/
def escChar (c : Char) : List Char :=
  if c = '"' then ['\\', '"']
  else if c = '\\' then ['\\', '\\']
  else if 32 ≤ c.toNat ∧ c.toNat ≤ 126 then [c]
  else if c.toNat = 8 then ['\\', 'b']
  else if c.toNat = 9 then ['\\', 't']
  else if c.toNat = 10 then ['\\', 'n']
  else if c.toNat = 12 then ['\\', 'f']
  else if c.toNat = 13 then ['\\', 'r']
  else if c.toNat < 65536 then '\\' :: 'u' :: hex4 c.toNat
  else ('\\' :: 'u' :: hex4 (55296 + (c.toNat - 65536) / 1024)) ++
       ('\\' :: 'u' :: hex4 (56320 + (c.toNat - 65536) % 1024))

/-- Escape a whole character sequence for a JSON string literal. -/
def escChars (l : List Char) : List Char := l.flatMap escChar

/-- Opening brace character (0x7b). -/
def lbrace : Char := Char.ofNat 123

/-- Closing brace character (0x7d). -/
def rbrace : Char := Char.ofNat 125

mutual
/-- `json.dumps` with the default separators `", "` and `": "`, on the
character-list level. -/
def jdumpC : Json → List Char
| .null => "null".data
| .bool true => "true".data
| .bool false => "false".data
| .num m e => intChars m ++ (if e = 0 then [] else 'e' :: intChars e)
| .str s => '"' :: (escChars s.data ++ ['"'])
| .arr [] => ['[', ']']
| .arr (x :: xs) => '[' :: (jdumpC x ++ jdumpArr xs) ++ [']']
| .obj [] => [lbrace, rbrace]
| .obj (kv :: kvs) => lbrace :: (jdumpKV kv ++ jdumpObj kvs) ++ [rbrace]

/-- Remaining array elements, each preceded by `", "`. -/
def jdumpArr : List Json → List Char
| [] => []
| x :: xs => ',' :: ' ' :: (jdumpC x ++ jdumpArr xs)

/-- One `"key": value` object entry. -/
def jdumpKV : String × Json → List Char
| (k, v) => '"' :: (escChars k.data ++ ('"' :: ':' :: ' ' :: jdumpC v))

/-- Remaining object entries, each preceded by `", "`. -/
def jdumpObj : List (String × Json) → List Char
| [] => []
| kv :: kvs => ',' :: ' ' :: (jdumpKV kv ++ jdumpObj kvs)
end

/-- `json.dumps(v)` with default options, as a string. -/
def dumps (v : Json) : String := ⟨jdumpC v⟩

/-- JSON whitespace accepted between tokens (space, tab, newline, return). -/
def isJsonWs (c : Char) : Bool :=
  c = ' ' || c = Char.ofNat 9 || c = Char.ofNat 10 || c = Char.ofNat 13

/-- Skip JSON whitespace. -/
def skipWs (l : List Char) : List Char := l.dropWhile isJsonWs

/-- Value of one hexadecimal digit (both cases accepted, as by
`int(s, 16)`). -/
def hexVal (c : Char) : Option Nat :=
  if 48 ≤ c.toNat ∧ c.toNat ≤ 57 then some (c.toNat - 48)
  else if 97 ≤ c.toNat ∧ c.toNat ≤ 102 then some (c.toNat - 87)
  else if 65 ≤ c.toNat ∧ c.toNat ≤ 70 then some (c.toNat - 55)
  else none

/-- Value of a four-digit hex escape payload. -/
def hex4Val (a b c d : Char) : Option Nat := do
  let va ← hexVal a
  let vb ← hexVal b
  let vc ← hexVal c
  let vd ← hexVal d
  pure (va * 4096 + vb * 256 + vc * 16 + vd)

/-- Translate a simple (non-`u`) string escape character. -/
def simpleEsc (c : Char) : Option Char :=
  if c = '"' then some '"'
  else if c = '\\' then some '\\'
  else if c = '/' then some '/'
  else if c = 'b' then some (Char.ofNat 8)
  else if c = 'f' then some (Char.ofNat 12)
  else if c = 'n' then some (Char.ofNat 10)
  else if c = 'r' then some (Char.ofNat 13)
  else if c = 't' then some (Char.ofNat 9)
  else none

/-- Decode one escape sequence after a backslash: a simple escape or a
`uXXXX` escape with surrogate-pair recombination; returns the decoded
character and the remaining input. -/
def parseEscapeSeq : List Char → Option (Char × List Char)
| [] => none
| 'u' :: h1 :: h2 :: h3 :: h4 :: rest3 =>
  match hex4Val h1 h2 h3 h4 with
  | none => none
  | some n =>
    if n < 55296 ∨ 57343 < n then some (Char.ofNat n, rest3)
    else if n ≤ 56319 then
      match rest3 with
      | '\\' :: 'u' :: g1 :: g2 :: g3 :: g4 :: rest4 =>
        match hex4Val g1 g2 g3 g4 with
        | none => none
        | some m =>
          if 56320 ≤ m ∧ m ≤ 57343 then
            some (Char.ofNat (65536 + (n - 55296) * 1024 + (m - 56320)), rest4)
          else none
      | _ => none
    else none
| e :: rest2 => (simpleEsc e).map (fun d => (d, rest2))

theorem parseEscapeSeq_shrink :
    ∀ (l : List Char) (dr : Char × List Char), parseEscapeSeq l = some dr →
    dr.2.length < l.length := by
  intro l dr h
  rw [parseEscapeSeq.eq_def] at h
  split at h
  · exact absurd h (by simp)
  · split at h
    · exact absurd h (by simp)
    · split at h
      · obtain rfl := Option.some.inj h
        simp
        omega
      · split at h
        · split at h
          · split at h
            · exact absurd h (by simp)
            · split at h
              · obtain rfl := Option.some.inj h
                simp
                omega
              · exact absurd h (by simp)
          · exact absurd h (by simp)
        · exact absurd h (by simp)
  · rw [Option.map_eq_some'] at h
    obtain ⟨d, hd, hdr⟩ := h
    rw [← hdr]
    simp

/-- Parse the body of a JSON string literal (the opening quote already
consumed), strict mode: raw control characters are rejected, escape
sequences are decoded by `parseEscapeSeq`. -/
def parseStringBody : List Char → Option (List Char × List Char)
| [] => none
| c :: rest =>
  if c = '"' then some ([], rest)
  else if c = '\\' then
    match hseq : parseEscapeSeq rest with
    | none => none
    | some dr => (parseStringBody dr.2).map (fun p => (dr.1 :: p.1, p.2))
  else if c.toNat < 32 then none
  else (parseStringBody rest).map (fun p => (c :: p.1, p.2))
termination_by l => l.length
decreasing_by
· have := parseEscapeSeq_shrink rest dr hseq
  simp only [List.length_cons]
  omega
· simp only [List.length_cons]
  omega

/-- Numeric value of a digit sequence. -/
def digitsToNat (ds : List Char) : Nat :=
  ds.foldl (fun a c => a * 10 + (c.toNat - 48)) 0

/-- Parse the optional `.digits` fraction after integer part `i`; a
malformed fraction is simply not consumed, as with the Python regular
expression `(\.[0-9]+)?`. -/
def parseFrac (i : Nat) (l : List Char) : Nat × Int × List Char :=
  match l with
  | '.' :: r =>
    let ds := r.takeWhile Char.isDigit
    if ds.isEmpty then (i, (0 : Int), l)
    else (i * 10 ^ ds.length + digitsToNat ds, -(ds.length : Int), r.dropWhile Char.isDigit)
  | _ => (i, (0 : Int), l)

/-- Parse the exponent digits (with optional sign); fall back to `l0`
(the input including the `e`) when no digits follow, as with
`([eE][+-]?[0-9]+)?`. -/
def parseExpTail (m1 : Nat) (e1 : Int) (l0 : List Char) (r : List Char) :
    (Nat × Int) × List Char :=
  match r with
  | '+' :: r2 =>
    let ds := r2.takeWhile Char.isDigit
    if ds.isEmpty then ((m1, e1), l0)
    else ((m1, e1 + digitsToNat ds), r2.dropWhile Char.isDigit)
  | '-' :: r2 =>
    let ds := r2.takeWhile Char.isDigit
    if ds.isEmpty then ((m1, e1), l0)
    else ((m1, e1 - digitsToNat ds), r2.dropWhile Char.isDigit)
  | _ =>
    let ds := r.takeWhile Char.isDigit
    if ds.isEmpty then ((m1, e1), l0)
    else ((m1, e1 + digitsToNat ds), r.dropWhile Char.isDigit)

/-- Parse the optional fraction and exponent after integer part `i`. -/
def parseFracExp (i : Nat) (l : List Char) : (Nat × Int) × List Char :=
  let (m1, e1, l1) := parseFrac i l
  match l1 with
  | 'e' :: r => parseExpTail m1 e1 l1 r
  | 'E' :: r => parseExpTail m1 e1 l1 r
  | _ => ((m1, e1), l1)

/-- Parse the unsigned part of a JSON number following the grammar
`(0|[1-9][0-9]*)(\.[0-9]+)?([eE][+-]?[0-9]+)?`; returns the decimal pair
(mantissa, exponent). -/
def parseNumUnsigned (l : List Char) : Option ((Nat × Int) × List Char) :=
  match l with
  | [] => none
  | c :: rest =>
    if c = '0' then some (parseFracExp 0 rest)
    else if c.isDigit then
      let ds := (c :: rest).takeWhile Char.isDigit
      some (parseFracExp (digitsToNat ds) ((c :: rest).dropWhile Char.isDigit))
    else none

/-- Parse a JSON number with optional leading minus sign. -/
def parseNumber (l : List Char) : Option ((Int × Int) × List Char) :=
  match l with
  | '-' :: rest =>
    (parseNumUnsigned rest).map (fun p => ((-(p.1.1 : Int), p.1.2), p.2))
  | _ => (parseNumUnsigned l).map (fun p => (((p.1.1 : Int), p.1.2), p.2))

/-- Insert into an ordered key/value list with Python-dict semantics:
an existing key keeps its position and takes the new value. -/
def objInsert : List (String × Json) → String → Json → List (String × Json)
| [], k, v => [(k, v)]
| (k0, v0) :: rest, k, v =>
  if k0 = k then (k0, v) :: rest else (k0, v0) :: objInsert rest k v

/-- `dict(pairs)`: fold a pair list into an ordered map. -/
def objFold (pairs : List (String × Json)) : List (String × Json) :=
  pairs.foldl (fun acc kv => objInsert acc kv.1 kv.2) []

mutual
/-- Parse one JSON value (no leading whitespace); `fuel` bounds the
nesting and list length, every recursive call consumes one unit. -/
def parseValue : Nat → List Char → Option (Json × List Char)
| 0, _ => none
| _ + 1, [] => none
| f + 1, c :: l =>
  if c = 'n' then
    match l with
    | 'u' :: 'l' :: 'l' :: rest => some (.null, rest)
    | _ => none
  else if c = 't' then
    match l with
    | 'r' :: 'u' :: 'e' :: rest => some (.bool true, rest)
    | _ => none
  else if c = 'f' then
    match l with
    | 'a' :: 'l' :: 's' :: 'e' :: rest => some (.bool false, rest)
    | _ => none
  else if c = '"' then
    (parseStringBody l).map (fun p => (.str ⟨p.1⟩, p.2))
  else if c = '[' then
    match skipWs l with
    | ']' :: r2 => some (.arr [], r2)
    | r1 => (parseArrItems f r1).map (fun p => (.arr p.1, p.2))
  else if c = lbrace then
    match skipWs l with
    | d :: r2 =>
      if d = rbrace then some (.obj [], r2)
      else (parseObjItems f (d :: r2)).map (fun p => (.obj (objFold p.1), p.2))
    | [] => none
  else
    (parseNumber (c :: l)).map (fun p => (.num p.1.1 p.1.2, p.2))

/-- Parse a non-empty comma-separated element list followed by `]`. -/
def parseArrItems : Nat → List Char → Option (List Json × List Char)
| 0, _ => none
| f + 1, l =>
  match parseValue f l with
  | none => none
  | some (v, r) =>
    match skipWs r with
    | ',' :: r2 =>
      (parseArrItems f (skipWs r2)).map (fun p => (v :: p.1, p.2))
    | ']' :: r2 => some ([v], r2)
    | _ => none

/-- Parse a non-empty comma-separated `"key": value` list followed by
the closing brace; yields the raw pair list in source order. -/
def parseObjItems : Nat → List Char → Option (List (String × Json) × List Char)
| 0, _ => none
| f + 1, '"' :: r =>
  match parseStringBody r with
  | none => none
  | some (k, r1) =>
    match skipWs r1 with
    | ':' :: r3 =>
      match parseValue f (skipWs r3) with
      | none => none
      | some (v, r4) =>
        match skipWs r4 with
        | ',' :: r6 =>
          (parseObjItems f (skipWs r6)).map (fun p => ((⟨k⟩, v) :: p.1, p.2))
        | d :: r6 =>
          if d = rbrace then some ([(⟨k⟩, v)], r6) else none
        | [] => none
    | _ => none
| _ + 1, _ => none
end

/-- `json.loads` on a character list: skip surrounding whitespace, parse
one value, and require the input to be exhausted. -/
def loadsC (l : List Char) : Option Json :=
  let l1 := skipWs l
  match parseValue (l1.length + 1) l1 with
  | some (v, r) => if skipWs r = [] then some v else none
  | none => none

/-- `json.loads` on a string. -/
def loads (s : String) : Option Json := loadsC s.data

/-! ### Round-trip infrastructure: characters and digits -/

theorem char_ext_toNat {a b : Char} (h : a.toNat = b.toNat) : a = b :=
  Char.ext (UInt32.ext h)

theorem toNat_ofNat_valid {n : Nat} (h : n.isValidChar) : (Char.ofNat n).toNat = n := by
  simp [Char.ofNat, h, Char.ofNatAux, Char.toNat, UInt32.toNat, BitVec.toNat_ofNatLt]

theorem char_valid_toNat (c : Char) :
    c.toNat < 55296 ∨ (57343 < c.toNat ∧ c.toNat < 1114112) := c.valid

theorem ofNat_toNat_char (c : Char) : Char.ofNat c.toNat = c :=
  char_ext_toNat (toNat_ofNat_valid c.valid)

/-- The next character (if any) fails predicate `p`. -/
def stopsAt (p : Char → Bool) : List Char → Prop
| [] => True
| c :: _ => p c = false

theorem isDigit_iff_toNat (c : Char) : c.isDigit = true ↔ (48 ≤ c.toNat ∧ c.toNat ≤ 57) := by
  simp only [Char.isDigit, Bool.and_eq_true, decide_eq_true_eq, Char.le_def]
  constructor
  · rintro ⟨h1, h2⟩
    exact ⟨h1, h2⟩
  · rintro ⟨h1, h2⟩
    exact ⟨h1, h2⟩

theorem takeWhile_append_all {p : Char → Bool} :
    ∀ l r : List Char, (∀ c ∈ l, p c = true) → stopsAt p r →
    (l ++ r).takeWhile p = l := by
  intro l
  induction l with
  | nil =>
    intro r _ hr
    cases r with
    | nil => rfl
    | cons c t =>
      simp only [stopsAt] at hr
      simp [List.takeWhile, hr]
  | cons c t ih =>
    intro r hl hr
    have hc : p c = true := hl c (by simp)
    simp only [List.cons_append, List.takeWhile, hc, List.append_eq]
    rw [ih r (fun d hd => hl d (by simp [hd])) hr]

theorem dropWhile_append_all {p : Char → Bool} :
    ∀ l r : List Char, (∀ c ∈ l, p c = true) → stopsAt p r →
    (l ++ r).dropWhile p = r := by
  intro l
  induction l with
  | nil =>
    intro r _ hr
    cases r with
    | nil => rfl
    | cons c t =>
      simp only [stopsAt] at hr
      simp [List.dropWhile, hr]
  | cons c t ih =>
    intro r hl hr
    have hc : p c = true := hl c (by simp)
    simp only [List.cons_append, List.dropWhile, hc]
    exact ih r (fun d hd => hl d (by simp [hd])) hr

theorem digitsToNat_go : ∀ (l : List Char) (a : Nat),
    l.foldl (fun b c => b * 10 + (c.toNat - 48)) a = a * 10 ^ l.length + digitsToNat l := by
  intro l
  induction l with
  | nil => intro a; simp [digitsToNat]
  | cons c t ih =>
    intro a
    have hcons : digitsToNat (c :: t)
        = t.foldl (fun b c => b * 10 + (c.toNat - 48)) (0 * 10 + (c.toNat - 48)) := rfl
    show t.foldl (fun b c => b * 10 + (c.toNat - 48)) (a * 10 + (c.toNat - 48)) = _
    rw [ih, hcons, ih]
    simp [List.length_cons]
    ring

theorem digitsToNat_cons (c : Char) (t : List Char) :
    digitsToNat (c :: t) = (c.toNat - 48) * 10 ^ t.length + digitsToNat t := by
  have h : digitsToNat (c :: t)
      = t.foldl (fun b c => b * 10 + (c.toNat - 48)) (0 * 10 + (c.toNat - 48)) := rfl
  rw [h, digitsToNat_go]
  ring

theorem digitsToNat_append (l r : List Char) :
    digitsToNat (l ++ r) = digitsToNat l * 10 ^ r.length + digitsToNat r := by
  have h : digitsToNat (l ++ r)
      = r.foldl (fun b c => b * 10 + (c.toNat - 48)) (digitsToNat l) := by
    simp [digitsToNat, List.foldl_append]
  rw [h, digitsToNat_go]

theorem natChars_digits : ∀ n : Nat, ∀ c ∈ natChars n, c.isDigit = true := by
  intro n
  induction n using Nat.strong_induction_on with
  | _ n ih =>
    rw [natChars]
    split
    case isTrue h =>
      intro c hc
      simp at hc
      subst hc
      have hv : (48 + n).isValidChar := Or.inl (by omega)
      rw [isDigit_iff_toNat, toNat_ofNat_valid hv]
      omega
    case isFalse h =>
      intro c hc
      simp at hc
      rcases hc with hc | hc
      · exact ih (n / 10) (Nat.div_lt_self (by omega) (by omega)) c hc
      · subst hc
        have hv : (48 + n % 10).isValidChar := Or.inl (by omega)
        rw [isDigit_iff_toNat, toNat_ofNat_valid hv]
        omega

theorem natChars_val : ∀ n : Nat, digitsToNat (natChars n) = n := by
  intro n
  induction n using Nat.strong_induction_on with
  | _ n ih =>
    rw [natChars]
    split
    case isTrue h =>
      have hv : (48 + n).isValidChar := Or.inl (by omega)
      simp [digitsToNat_cons, digitsToNat, toNat_ofNat_valid hv]
    case isFalse h =>
      rw [digitsToNat_append, ih (n / 10) (Nat.div_lt_self (by omega) (by omega))]
      have hv : (48 + n % 10).isValidChar := Or.inl (by omega)
      simp [digitsToNat_cons, digitsToNat, toNat_ofNat_valid hv]
      omega

theorem natChars_ne_nil (n : Nat) : natChars n ≠ [] := by
  rw [natChars]
  split <;> simp

theorem natChars_head_pos : ∀ n : Nat, 0 < n →
    ∃ c cs, natChars n = c :: cs ∧ 49 ≤ c.toNat ∧ c.toNat ≤ 57 := by
  intro n
  induction n using Nat.strong_induction_on with
  | _ n ih =>
    intro hn
    rw [natChars]
    split
    case isTrue h =>
      have hv : (48 + n).isValidChar := Or.inl (by omega)
      exact ⟨_, _, rfl, by rw [toNat_ofNat_valid hv]; omega, by rw [toNat_ofNat_valid hv]; omega⟩
    case isFalse h =>
      obtain ⟨c, cs, hEq, h1, h2⟩ :=
        ih (n / 10) (Nat.div_lt_self (by omega) (by omega)) (by omega)
      exact ⟨c, cs ++ [Char.ofNat (48 + n % 10)], by rw [hEq]; rfl, h1, h2⟩

/-! ### Number round-trip -/

/-- The contexts in which a value ends inside compact `json.dumps` output:
end of input, or a separator/closer. -/
def numStop : List Char → Prop
| [] => True
| c :: _ => c = ',' ∨ c = ']' ∨ c = rbrace

theorem numStop_stops_digit {r : List Char} (h : numStop r) : stopsAt Char.isDigit r := by
  cases r with
  | nil => trivial
  | cons c t =>
    rcases h with h | h | h <;> subst h <;> simp [stopsAt, rbrace]

theorem expTail_stops_digit (e : Int) {rest : List Char} (h : numStop rest) :
    stopsAt Char.isDigit ((if e = 0 then [] else 'e' :: intChars e) ++ rest) := by
  by_cases he : e = 0
  · simpa [he] using numStop_stops_digit h
  · simp [he, stopsAt]

theorem natChars_isEmpty_false (n : Nat) : (natChars n).isEmpty = false := by
  have := natChars_ne_nil n
  cases hc : natChars n with
  | nil => exact absurd hc this
  | cons c cs => simp

theorem parseExpTail_dump (a : Nat) (e : Int) (he : e ≠ 0) (l0 rest : List Char)
    (h : numStop rest) :
    parseExpTail a 0 l0 (intChars e ++ rest) = ((a, e), rest) := by
  have htw : (natChars e.natAbs ++ rest).takeWhile Char.isDigit = natChars e.natAbs :=
    takeWhile_append_all _ _ (natChars_digits _) (numStop_stops_digit h)
  have hdw : (natChars e.natAbs ++ rest).dropWhile Char.isDigit = rest :=
    dropWhile_append_all _ _ (natChars_digits _) (numStop_stops_digit h)
  rcases lt_or_gt_of_ne he with hneg | hpos
  · have hi : intChars e = '-' :: natChars e.natAbs := by
      simp [intChars, hneg]
    rw [hi, List.cons_append, parseExpTail.eq_def]
    split
    · next t heq =>
      exfalso
      have := (List.cons.inj heq).1
      simp at this
    · next t heq =>
      obtain ⟨-, ht⟩ := List.cons.inj heq
      subst ht
      simp only [htw, natChars_isEmpty_false, Bool.false_eq_true, if_false, hdw, natChars_val]
      congr 2
      omega
    · next hne =>
      exfalso
      exact hne (natChars e.natAbs ++ rest) rfl
  · have hi : intChars e = natChars e.natAbs := by
      simp [intChars, not_lt_of_gt hpos]
    rw [hi]
    obtain ⟨c, cs, hcons, hc1, hc2⟩ := natChars_head_pos e.natAbs (by omega)
    have hcne1 : c ≠ '+' := by
      intro hcontra
      subst hcontra
      exact absurd hc1 (by decide)
    have hcne2 : c ≠ '-' := by
      intro hcontra
      subst hcontra
      exact absurd hc1 (by decide)
    rw [hcons] at htw hdw ⊢
    simp only [List.cons_append] at htw hdw ⊢
    rw [parseExpTail.eq_def]
    split
    · next t heq => exact absurd (List.cons.inj heq).1 hcne1
    · next t heq => exact absurd (List.cons.inj heq).1 hcne2
    · have hne : (c :: (cs ++ rest)).isEmpty = false := by simp
      simp only [htw]
      rw [← hcons, natChars_isEmpty_false, natChars_val]
      simp only [Bool.false_eq_true, if_false, hdw]
      congr 2
      omega

theorem parseFrac_not_dot (i : Nat) (l : List Char) (h : ∀ t, l ≠ '.' :: t) :
    parseFrac i l = (i, 0, l) := by
  rw [parseFrac.eq_def]
  split
  · next t => exact absurd rfl (h t)
  · rfl

theorem parseFracExp_dump (a : Nat) (e : Int) (rest : List Char) (h : numStop rest) :
    parseFracExp a ((if e = 0 then [] else 'e' :: intChars e) ++ rest)
      = ((a, e), rest) := by
  have hfr : ∀ t, ((if e = 0 then [] else 'e' :: intChars e) ++ rest) ≠ '.' :: t := by
    intro t heq
    by_cases he : e = 0
    · rw [if_pos he, List.nil_append] at heq
      cases rest with
      | nil => simp at heq
      | cons c r =>
        have hc := (List.cons.inj heq).1
        subst hc
        rcases h with h1 | h1 | h1 <;> revert h1 <;> simp [rbrace]
    · rw [if_neg he, List.cons_append] at heq
      exact absurd (List.cons.inj heq).1 (by decide)
  have hf := parseFrac_not_dot a _ hfr
  simp only [parseFracExp, hf]
  by_cases he : e = 0
  · subst he
    simp only [if_pos rfl, List.nil_append] at *
    cases rest with
    | nil => simp
    | cons c r =>
      rcases h with h1 | h1 | h1 <;> subst h1 <;> simp [rbrace]
  · simp only [if_neg he, List.cons_append] at *
    have := parseExpTail_dump a e he ('e' :: (intChars e ++ rest)) rest h
    simpa using this

theorem parseNumUnsigned_dump (a : Nat) (e : Int) (rest : List Char) (h : numStop rest) :
    parseNumUnsigned (natChars a ++ ((if e = 0 then [] else 'e' :: intChars e) ++ rest))
      = some ((a, e), rest) := by
  have hstop : stopsAt Char.isDigit ((if e = 0 then [] else 'e' :: intChars e) ++ rest) :=
    expTail_stops_digit e h
  have htw : (natChars a ++ ((if e = 0 then [] else 'e' :: intChars e) ++ rest)).takeWhile
      Char.isDigit = natChars a :=
    takeWhile_append_all _ _ (natChars_digits _) hstop
  have hdw : (natChars a ++ ((if e = 0 then [] else 'e' :: intChars e) ++ rest)).dropWhile
      Char.isDigit = (if e = 0 then [] else 'e' :: intChars e) ++ rest :=
    dropWhile_append_all _ _ (natChars_digits _) hstop
  by_cases ha : a = 0
  · subst ha
    have h0 : natChars 0 = ['0'] := by
      rw [natChars]
      simp only [if_pos (by omega : (0 : Nat) < 10)]
    rw [h0, List.cons_append, List.nil_append]
    simp only [parseNumUnsigned]
    rw [parseFracExp_dump 0 e rest h]
    exact if_pos trivial
  · obtain ⟨c, cs, hcons, hc1, hc2⟩ := natChars_head_pos a (by omega)
    have hc0 : ¬ c = '0' := by
      intro hcontra
      subst hcontra
      exact absurd hc1 (by decide)
    have hcd : c.isDigit = true := (isDigit_iff_toNat c).2 (by omega)
    rw [hcons] at htw hdw ⊢
    rw [List.cons_append]
    rw [List.cons_append] at htw hdw
    simp only [parseNumUnsigned, if_neg hc0, hcd]
    rw [htw, hdw, ← hcons, natChars_val]
    rw [parseFracExp_dump a e rest h]
    simp

theorem parseNumber_dump (m e : Int) (rest : List Char) (h : numStop rest) :
    parseNumber (jdumpC (.num m e) ++ rest) = some ((m, e), rest) := by
  have hd : jdumpC (.num m e) = intChars m ++ (if e = 0 then [] else 'e' :: intChars e) := by
    rw [jdumpC]
  rw [hd, List.append_assoc]
  by_cases hm : m < 0
  · have hi : intChars m = '-' :: natChars m.natAbs := by
      simp [intChars, hm]
    rw [hi, List.cons_append]
    rw [parseNumber.eq_def]
    split
    · next t heq =>
      obtain ⟨-, ht⟩ := List.cons.inj heq
      subst ht
      rw [parseNumUnsigned_dump m.natAbs e rest h]
      have hval : -((m.natAbs : Nat) : Int) = m := by omega
      simp only [Option.map_some']
      rw [hval]
    · next hnp => exact absurd rfl (hnp (natChars m.natAbs ++ _))
  · have hi : intChars m = natChars m.natAbs := by
      simp [intChars, hm]
    rw [hi]
    rw [parseNumber.eq_def]
    have hnotminus : ∀ t, natChars m.natAbs ++ ((if e = 0 then [] else 'e' :: intChars e) ++ rest) ≠ '-' :: t := by
      intro t heq
      by_cases ha : m.natAbs = 0
      · rw [ha] at heq
        have h0 : natChars 0 = ['0'] := by
          rw [natChars]
          simp only [if_pos (by omega : (0 : Nat) < 10)]
        rw [h0, List.cons_append, List.nil_append] at heq
        exact absurd (List.cons.inj heq).1 (by decide)
      · obtain ⟨c, cs, hcons, hc1, hc2⟩ := natChars_head_pos m.natAbs (by omega)
        rw [hcons, List.cons_append] at heq
        have hceq := (List.cons.inj heq).1
        subst hceq
        exact absurd hc1 (by decide)
    split
    · next t heq => exact absurd heq (hnotminus t)
    · next hnp =>
      rw [parseNumUnsigned_dump m.natAbs e rest h]
      have hval : ((m.natAbs : Nat) : Int) = m := by omega
      simp only [Option.map_some']
      rw [hval]

/-! ### String escape round-trip -/

theorem hexVal_hexDigitChar (d : Nat) (h : d < 16) : hexVal (hexDigitChar d) = some d := by
  interval_cases d <;> decide

theorem hex4Val_hex4 (n : Nat) (h : n < 65536) :
    hex4Val (hexDigitChar (n / 4096 % 16)) (hexDigitChar (n / 256 % 16))
      (hexDigitChar (n / 16 % 16)) (hexDigitChar (n % 16)) = some n := by
  have e1 := hexVal_hexDigitChar (n / 4096 % 16) (by omega)
  have e2 := hexVal_hexDigitChar (n / 256 % 16) (by omega)
  have e3 := hexVal_hexDigitChar (n / 16 % 16) (by omega)
  have e4 := hexVal_hexDigitChar (n % 16) (by omega)
  simp [hex4Val, e1, e2, e3, e4]
  omega

theorem parseEscapeSeq_u (n : Nat) (h16 : n < 65536) (hns : n < 55296 ∨ 57343 < n)
    (L : List Char) :
    parseEscapeSeq ('u' :: (hex4 n ++ L)) = some (Char.ofNat n, L) := by
  simp only [hex4, List.cons_append, List.nil_append]
  simp only [parseEscapeSeq]
  rw [hex4Val_hex4 n h16]
  simp [if_pos hns]

theorem parseEscapeSeq_pair (n : Nat) (hge : 65536 ≤ n) (hlt : n < 1114112) (L : List Char) :
    parseEscapeSeq ('u' :: (hex4 (55296 + (n - 65536) / 1024)
        ++ ('\\' :: 'u' :: (hex4 (56320 + (n - 65536) % 1024) ++ L))))
      = some (Char.ofNat n, L) := by
  have hhi : 55296 + (n - 65536) / 1024 < 65536 := by omega
  have hlo : 56320 + (n - 65536) % 1024 < 65536 := by omega
  have hno : ¬ (55296 + (n - 65536) / 1024 < 55296 ∨ 57343 < 55296 + (n - 65536) / 1024) := by
    have hdiv : (n - 65536) / 1024 ≤ 1023 := by omega
    omega
  have hyes : 55296 + (n - 65536) / 1024 ≤ 56319 := by
    have hdiv : (n - 65536) / 1024 ≤ 1023 := by omega
    omega
  have hrange : 56320 ≤ 56320 + (n - 65536) % 1024 ∧ 56320 + (n - 65536) % 1024 ≤ 57343 := by
    omega
  have harith : 65536 + (55296 + (n - 65536) / 1024 - 55296) * 1024
      + (56320 + (n - 65536) % 1024 - 56320) = n := by omega
  simp only [hex4, List.cons_append, List.nil_append]
  simp only [parseEscapeSeq]
  rw [hex4Val_hex4 _ hhi]
  split
  · next heq => cases heq
  · next n1 heq =>
    obtain rfl := Option.some.inj heq
    rw [if_neg hno, if_pos hyes]
    rw [hex4Val_hex4 _ hlo]
    split
    · next heq2 => cases heq2
    · next m2 heq2 =>
      obtain rfl := Option.some.inj heq2
      rw [if_pos hrange, harith]

theorem parseStringBody_quote (rest : List Char) :
    parseStringBody ('"' :: rest) = some ([], rest) := by
  rw [parseStringBody, if_pos rfl]

theorem parseStringBody_backslash (rest : List Char) (dr : Char × List Char)
    (h : parseEscapeSeq rest = some dr) :
    parseStringBody ('\\' :: rest)
      = (parseStringBody dr.2).map (fun p => (dr.1 :: p.1, p.2)) := by
  rw [parseStringBody, if_neg (by decide : ¬ ('\\' : Char) = '"'), if_pos rfl]
  split
  · next heq =>
    rw [h] at heq
    cases heq
  · next dr2 heq =>
    rw [h] at heq
    obtain rfl := Option.some.inj heq
    rfl

theorem parseStringBody_plain (c : Char) (rest : List Char) (h1 : ¬ c = '"')
    (h2 : ¬ c = '\\') (h3 : ¬ c.toNat < 32) :
    parseStringBody (c :: rest)
      = (parseStringBody rest).map (fun p => (c :: p.1, p.2)) := by
  rw [parseStringBody, if_neg h1, if_neg h2, if_neg h3]

theorem parseEscapeSeq_simple (e d : Char) (L : List Char) (h : simpleEsc e = some d) :
    parseEscapeSeq (e :: L) = some (d, L) := by
  rw [parseEscapeSeq.eq_def]
  split
  · next heq => exact absurd heq (by simp)
  · next h1 h2 h3 h4 rest3 heq =>
    obtain ⟨he, -⟩ := List.cons.inj heq
    rw [he, (by decide : simpleEsc 'u' = (none : Option Char))] at h
    exact absurd h (by simp)
  · next e2 rest2 hne1 hne2 heq =>
    obtain ⟨he, hL⟩ := List.cons.inj heq
    subst he
    subst hL
    rw [h]
    rfl

theorem parseStringBody_esc : ∀ s rest : List Char,
    parseStringBody (escChars s ++ ('"' :: rest)) = some (s, rest) := by
  intro s
  induction s with
  | nil =>
    intro rest
    simpa [escChars] using parseStringBody_quote rest
  | cons c s ih =>
    intro rest
    have hsplit : escChars (c :: s) ++ ('"' :: rest)
        = escChar c ++ (escChars s ++ ('"' :: rest)) := by
      simp [escChars, List.append_assoc]
    rw [hsplit]
    by_cases h1 : c = '"'
    · subst h1
      rw [(by decide : escChar '"' = ['\\', '"']), List.cons_append, List.cons_append,
        List.nil_append]
      rw [parseStringBody_backslash _ _ (parseEscapeSeq_simple '"' '"' _ (by decide))]
      rw [ih rest]
      rfl
    · by_cases h2 : c = '\\'
      · subst h2
        rw [(by decide : escChar '\\' = ['\\', '\\']), List.cons_append, List.cons_append,
          List.nil_append]
        rw [parseStringBody_backslash _ _ (parseEscapeSeq_simple '\\' '\\' _ (by decide))]
        rw [ih rest]
        rfl
      · by_cases h3 : 32 ≤ c.toNat ∧ c.toNat ≤ 126
        · rw [escChar, if_neg h1, if_neg h2, if_pos h3]
          rw [List.cons_append, List.nil_append]
          rw [parseStringBody_plain c _ h1 h2 (by omega)]
          rw [ih rest]
          rfl
        · have hv := char_valid_toNat c
          by_cases h8 : c.toNat = 8
          · rw [escChar, if_neg h1, if_neg h2, if_neg h3, if_pos h8]
            have hc : Char.ofNat 8 = c :=
              char_ext_toNat (by rw [toNat_ofNat_valid (Or.inl (by omega))]; omega)
            rw [List.cons_append, List.cons_append, List.nil_append]
            rw [parseStringBody_backslash _ _
              (parseEscapeSeq_simple 'b' (Char.ofNat 8) _ (by decide))]
            rw [ih rest, hc]
            rfl
          · by_cases h9 : c.toNat = 9
            · rw [escChar, if_neg h1, if_neg h2, if_neg h3, if_neg h8, if_pos h9]
              have hc : Char.ofNat 9 = c :=
                char_ext_toNat (by rw [toNat_ofNat_valid (Or.inl (by omega))]; omega)
              rw [List.cons_append, List.cons_append, List.nil_append]
              rw [parseStringBody_backslash _ _
                (parseEscapeSeq_simple 't' (Char.ofNat 9) _ (by decide))]
              rw [ih rest, hc]
              rfl
            · by_cases h10 : c.toNat = 10
              · rw [escChar, if_neg h1, if_neg h2, if_neg h3, if_neg h8, if_neg h9, if_pos h10]
                have hc : Char.ofNat 10 = c :=
                  char_ext_toNat (by rw [toNat_ofNat_valid (Or.inl (by omega))]; omega)
                rw [List.cons_append, List.cons_append, List.nil_append]
                rw [parseStringBody_backslash _ _
                  (parseEscapeSeq_simple 'n' (Char.ofNat 10) _ (by decide))]
                rw [ih rest, hc]
                rfl
              · by_cases h12 : c.toNat = 12
                · rw [escChar, if_neg h1, if_neg h2, if_neg h3, if_neg h8, if_neg h9,
                    if_neg h10, if_pos h12]
                  have hc : Char.ofNat 12 = c :=
                    char_ext_toNat (by rw [toNat_ofNat_valid (Or.inl (by omega))]; omega)
                  rw [List.cons_append, List.cons_append, List.nil_append]
                  rw [parseStringBody_backslash _ _
                    (parseEscapeSeq_simple 'f' (Char.ofNat 12) _ (by decide))]
                  rw [ih rest, hc]
                  rfl
                · by_cases h13 : c.toNat = 13
                  · rw [escChar, if_neg h1, if_neg h2, if_neg h3, if_neg h8, if_neg h9,
                      if_neg h10, if_neg h12, if_pos h13]
                    have hc : Char.ofNat 13 = c :=
                      char_ext_toNat (by rw [toNat_ofNat_valid (Or.inl (by omega))]; omega)
                    rw [List.cons_append, List.cons_append, List.nil_append]
                    rw [parseStringBody_backslash _ _
                      (parseEscapeSeq_simple 'r' (Char.ofNat 13) _ (by decide))]
                    rw [ih rest, hc]
                    rfl
                  · by_cases h16 : c.toNat < 65536
                    · rw [escChar, if_neg h1, if_neg h2, if_neg h3, if_neg h8, if_neg h9,
                        if_neg h10, if_neg h12, if_neg h13, if_pos h16]
                      rw [List.cons_append, List.cons_append]
                      rw [parseStringBody_backslash _ _
                        (parseEscapeSeq_u c.toNat h16 (by omega) _)]
                      rw [ih rest, ofNat_toNat_char]
                      rfl
                    · rw [escChar, if_neg h1, if_neg h2, if_neg h3, if_neg h8, if_neg h9,
                        if_neg h10, if_neg h12, if_neg h13, if_neg h16]
                      have hlt : c.toNat < 1114112 := by omega
                      have hshape : (('\\' :: 'u' :: hex4 (55296 + (c.toNat - 65536) / 1024)) ++
                            ('\\' :: 'u' :: hex4 (56320 + (c.toNat - 65536) % 1024)))
                            ++ (escChars s ++ ('"' :: rest))
                          = '\\' :: ('u' :: (hex4 (55296 + (c.toNat - 65536) / 1024)
                            ++ ('\\' :: 'u' :: (hex4 (56320 + (c.toNat - 65536) % 1024)
                              ++ (escChars s ++ ('"' :: rest)))))) := by
                        simp [List.append_assoc]
                      rw [hshape]
                      rw [parseStringBody_backslash _ _
                        (parseEscapeSeq_pair c.toNat (by omega) hlt _)]
                      rw [ih rest, ofNat_toNat_char]
                      rfl

/-! ### Value-level round-trip: well-formedness, fuel, object folding -/

/-- Does the ordered map contain key `k`? -/
def hasKey (kvs : List (String × Json)) (k : String) : Bool :=
  kvs.any (fun kv => kv.1 == k)

mutual
/-- Well-formed JSON values: object key lists are duplicate-free (the
invariant maintained by `dict`). -/
def jwf : Json → Bool
| .null => true
| .bool _ => true
| .num _ _ => true
| .str _ => true
| .arr xs => jwfL xs
| .obj kvs => jwfO kvs

/-- All elements well-formed. -/
def jwfL : List Json → Bool
| [] => true
| x :: xs => jwf x && jwfL xs

/-- Entries well-formed and keys duplicate-free. -/
def jwfO : List (String × Json) → Bool
| [] => true
| (k, v) :: kvs => !(hasKey kvs k) && jwf v && jwfO kvs
end

mutual
/-- Fuel needed by `parseValue` to parse this value back. -/
def jfuel : Json → Nat
| .null => 1
| .bool _ => 1
| .num _ _ => 1
| .str _ => 1
| .arr xs => 1 + jfuelA xs
| .obj kvs => 1 + jfuelO kvs

/-- Fuel needed by `parseArrItems` for this element list. -/
def jfuelA : List Json → Nat
| [] => 0
| x :: xs => 1 + max (jfuel x) (jfuelA xs)

/-- Fuel needed by `parseObjItems` for this entry list. -/
def jfuelO : List (String × Json) → Nat
| [] => 0
| kv :: kvs => 1 + max (jfuel kv.2) (jfuelO kvs)
end

theorem char_ne_of_toNat_ne {a b : Char} (h : a.toNat ≠ b.toNat) : a ≠ b :=
  fun hc => h (congrArg Char.toNat hc)

theorem isJsonWs_false_of {c : Char}
    (h : c.toNat ≠ 32 ∧ c.toNat ≠ 9 ∧ c.toNat ≠ 10 ∧ c.toNat ≠ 13) :
    isJsonWs c = false := by
  have e1 : (' ' : Char).toNat = 32 := by decide
  have e2 : (Char.ofNat 9).toNat = 9 := by decide
  have e3 : (Char.ofNat 10).toNat = 10 := by decide
  have e4 : (Char.ofNat 13).toNat = 13 := by decide
  simp only [isJsonWs, Bool.or_eq_false_iff, decide_eq_false_iff_not]
  exact ⟨⟨⟨char_ne_of_toNat_ne (by omega), char_ne_of_toNat_ne (by omega)⟩,
    char_ne_of_toNat_ne (by omega)⟩, char_ne_of_toNat_ne (by omega)⟩

theorem skipWs_not_ws {c : Char} (h : isJsonWs c = false) (l : List Char) :
    skipWs (c :: l) = c :: l := by
  simp [skipWs, List.dropWhile, h]

theorem skipWs_ws {c : Char} (h : isJsonWs c = true) (l : List Char) :
    skipWs (c :: l) = skipWs l := by
  simp [skipWs, List.dropWhile, h]

theorem natChars_head_digit (n : Nat) :
    ∃ c cs, natChars n = c :: cs ∧ 48 ≤ c.toNat ∧ c.toNat ≤ 57 := by
  rcases Nat.eq_zero_or_pos n with h | h
  · subst h
    refine ⟨'0', [], ?_, by decide, by decide⟩
    rw [natChars]
    simp only [if_pos (by omega : (0 : Nat) < 10)]
  · obtain ⟨c, cs, hc, h1, h2⟩ := natChars_head_pos n h
    exact ⟨c, cs, hc, by omega, h2⟩

/-- The first character of a serialized value: one of `n t f " [` the
opening brace, `-`, or a digit. -/
theorem jdumpC_head_spec (v : Json) :
    ∃ c cs, jdumpC v = c :: cs ∧
      (c.toNat = 110 ∨ c.toNat = 116 ∨ c.toNat = 102 ∨ c.toNat = 34 ∨ c.toNat = 91 ∨
       c.toNat = 123 ∨ c.toNat = 45 ∨ (48 ≤ c.toNat ∧ c.toNat ≤ 57)) := by
  cases v with
  | null => exact ⟨'n', _, rfl, by decide⟩
  | bool b =>
    cases b with
    | true => exact ⟨'t', _, rfl, by decide⟩
    | false => exact ⟨'f', _, rfl, by decide⟩
  | num m e =>
    by_cases hm : m < 0
    · refine ⟨'-', natChars m.natAbs ++ (if e = 0 then [] else 'e' :: intChars e), ?_, by decide⟩
      rw [jdumpC]
      simp [intChars, hm]
    · obtain ⟨c, cs, hc, h1, h2⟩ := natChars_head_digit m.natAbs
      refine ⟨c, cs ++ (if e = 0 then [] else 'e' :: intChars e), ?_, by omega⟩
      rw [jdumpC]
      simp [intChars, hm, hc]
  | str s => exact ⟨'"', _, rfl, by decide⟩
  | arr xs =>
    cases xs with
    | nil => exact ⟨'[', _, rfl, by decide⟩
    | cons x xs => exact ⟨'[', _, rfl, by decide⟩
  | obj kvs =>
    cases kvs with
    | nil => exact ⟨lbrace, _, rfl, by decide⟩
    | cons kv kvs => exact ⟨lbrace, _, rfl, by decide⟩

theorem jdumpC_head_not_ws (v : Json) :
    ∃ c cs, jdumpC v = c :: cs ∧ isJsonWs c = false ∧ c ≠ ']' ∧ c ≠ rbrace := by
  obtain ⟨c, cs, hc, hs⟩ := jdumpC_head_spec v
  have hr : rbrace.toNat = 125 := by decide
  have hb : (']' : Char).toNat = 93 := by decide
  exact ⟨c, cs, hc, isJsonWs_false_of (by omega),
    char_ne_of_toNat_ne (by omega), char_ne_of_toNat_ne (by omega)⟩

theorem skipWs_jdumpC (v : Json) (r : List Char) :
    skipWs (jdumpC v ++ r) = jdumpC v ++ r := by
  obtain ⟨c, cs, hc, hw, -, -⟩ := jdumpC_head_not_ws v
  rw [hc, List.cons_append, skipWs_not_ws hw]

theorem hasKey_append (l1 l2 : List (String × Json)) (k : String) :
    hasKey (l1 ++ l2) k = (hasKey l1 k || hasKey l2 k) := by
  simp [hasKey, List.any_append]

theorem hasKey_false_iff (l : List (String × Json)) (k : String) :
    hasKey l k = false ↔ ∀ kv ∈ l, ¬ (kv.1 = k) := by
  simp [hasKey, List.any_eq_false]

theorem objInsert_append (acc : List (String × Json)) (k : String) (v : Json)
    (h : hasKey acc k = false) : objInsert acc k v = acc ++ [(k, v)] := by
  induction acc with
  | nil => rfl
  | cons kv acc ih =>
    obtain ⟨k0, v0⟩ := kv
    rw [hasKey] at h
    simp only [List.any_cons, Bool.or_eq_false_iff] at h
    obtain ⟨hk0, hrest⟩ := h
    rw [objInsert, if_neg (by simpa using hk0)]
    rw [ih hrest]
    rfl

theorem foldl_objInsert : ∀ (kvs acc : List (String × Json)), jwfO kvs = true →
    (∀ kv ∈ kvs, hasKey acc kv.1 = false) →
    List.foldl (fun a kv => objInsert a kv.1 kv.2) acc kvs = acc ++ kvs := by
  intro kvs
  induction kvs with
  | nil => intro acc _ _; simp
  | cons kv kvs ih =>
    intro acc hwf hkeys
    obtain ⟨k, v⟩ := kv
    rw [jwfO] at hwf
    simp only [Bool.and_eq_true, Bool.not_eq_true'] at hwf
    obtain ⟨⟨hnk, hv⟩, hrest⟩ := hwf
    simp only [List.foldl]
    rw [objInsert_append acc k v (hkeys (k, v) (by simp))]
    rw [ih (acc ++ [(k, v)]) hrest ?_]
    · simp
    · intro kv2 hkv2
      rw [hasKey_append]
      have h1 : hasKey acc kv2.1 = false := hkeys kv2 (by simp [hkv2])
      have h2 : hasKey [(k, v)] kv2.1 = false := by
        rw [hasKey_false_iff]
        intro kv3 hkv3
        simp only [List.mem_singleton] at hkv3
        subst hkv3
        intro hkk
        rw [hasKey_false_iff] at hnk
        exact hnk kv2 hkv2 hkk.symm
      rw [h1, h2]
      rfl

theorem objFold_self (kvs : List (String × Json)) (h : jwfO kvs = true) :
    objFold kvs = kvs := by
  rw [objFold, foldl_objInsert kvs [] h (by intro kv _; rfl)]
  simp

theorem jfuel_pos (v : Json) : 1 ≤ jfuel v := by
  cases v <;> simp [jfuel]

theorem numStop_arrTail (xs : List Json) (rest : List Char) (h : numStop rest) :
    numStop (jdumpArr xs ++ (']' :: rest)) := by
  cases xs with
  | nil => simp [jdumpArr, numStop]
  | cons x xs => simp [jdumpArr, numStop]

theorem numStop_objTail (kvs : List (String × Json)) (rest : List Char) :
    numStop (jdumpObj kvs ++ (rbrace :: rest)) := by
  cases kvs with
  | nil => simp [jdumpObj, numStop]
  | cons kv kvs => simp [jdumpObj, numStop]

theorem skipWs_jdumpKV (kv : String × Json) (r : List Char) :
    skipWs (jdumpKV kv ++ r) = jdumpKV kv ++ r := by
  obtain ⟨k, v⟩ := kv
  rw [jdumpKV, List.cons_append, skipWs_not_ws (by decide)]

theorem parse_dump_main : ∀ f : Nat,
    (∀ v rest, jwf v = true → jfuel v ≤ f → numStop rest →
      parseValue f (jdumpC v ++ rest) = some (v, rest))
  ∧ (∀ x xs rest, jwf x = true → jwfL xs = true → jfuelA (x :: xs) ≤ f → numStop rest →
      parseArrItems f (jdumpC x ++ (jdumpArr xs ++ (']' :: rest))) = some (x :: xs, rest))
  ∧ (∀ k v kvs rest, jwf v = true → jwfO kvs = true → jfuelO ((k, v) :: kvs) ≤ f →
      numStop rest →
      parseObjItems f (jdumpKV (k, v) ++ (jdumpObj kvs ++ (rbrace :: rest)))
        = some ((k, v) :: kvs, rest)) := by
  intro f
  induction f with
  | zero =>
    refine ⟨?_, ?_, ?_⟩
    · intro v rest _ hf _
      have := jfuel_pos v
      omega
    · intro x xs rest _ _ hf _
      rw [jfuelA] at hf
      omega
    · intro k v kvs rest _ _ hf _
      rw [jfuelO] at hf
      omega
  | succ f ih =>
    obtain ⟨ihV, ihA, ihO⟩ := ih
    have hValue : ∀ v rest, jwf v = true → jfuel v ≤ f + 1 → numStop rest →
        parseValue (f + 1) (jdumpC v ++ rest) = some (v, rest) := by
      intro v rest hwf hfuel hstop
      cases v with
      | null => simp [jdumpC, parseValue]
      | bool b => cases b <;> simp [jdumpC, parseValue]
      | num m e =>
        have hhead : ∃ c0 cs0, jdumpC (.num m e) = c0 :: cs0 ∧
            (c0.toNat = 45 ∨ (48 ≤ c0.toNat ∧ c0.toNat ≤ 57)) := by
          by_cases hm : m < 0
          · refine ⟨'-', natChars m.natAbs ++ (if e = 0 then [] else 'e' :: intChars e),
              ?_, Or.inl (by decide)⟩
            rw [jdumpC]
            simp [intChars, hm]
          · obtain ⟨c, cs, hc, hd1, hd2⟩ := natChars_head_digit m.natAbs
            refine ⟨c, cs ++ (if e = 0 then [] else 'e' :: intChars e), ?_,
              Or.inr ⟨hd1, hd2⟩⟩
            rw [jdumpC]
            simp [intChars, hm, hc]
        obtain ⟨c0, cs0, hcons, hrange⟩ := hhead
        have e110 : ('n' : Char).toNat = 110 := by decide
        have e116 : ('t' : Char).toNat = 116 := by decide
        have e102 : ('f' : Char).toNat = 102 := by decide
        have e34 : ('"' : Char).toNat = 34 := by decide
        have e91 : ('[' : Char).toNat = 91 := by decide
        have e123 : lbrace.toNat = 123 := by decide
        rw [hcons, List.cons_append]
        simp only [parseValue]
        rw [if_neg (char_ne_of_toNat_ne (by omega)), if_neg (char_ne_of_toNat_ne (by omega)),
          if_neg (char_ne_of_toNat_ne (by omega)), if_neg (char_ne_of_toNat_ne (by omega)),
          if_neg (char_ne_of_toNat_ne (by omega)), if_neg (char_ne_of_toNat_ne (by omega))]
        rw [← List.cons_append, ← hcons, parseNumber_dump m e rest hstop]
        rfl
      | str s =>
        have hshape : jdumpC (.str s) ++ rest = '"' :: (escChars s.data ++ ('"' :: rest)) := by
          rw [jdumpC]
          simp [List.append_assoc]
        rw [hshape]
        simp only [parseValue]
        rw [if_neg (by decide : ¬ ('"' : Char) = 'n'), if_neg (by decide : ¬ ('"' : Char) = 't'),
          if_neg (by decide : ¬ ('"' : Char) = 'f'), if_pos trivial]
        rw [parseStringBody_esc s.data rest]
        rfl
      | arr xs =>
        cases xs with
        | nil =>
          have hshape : jdumpC (.arr []) ++ rest = '[' :: (']' :: rest) := by
            rw [jdumpC]
            rfl
          rw [hshape]
          simp only [parseValue]
          rw [if_neg (by decide : ¬ ('[' : Char) = 'n'), if_neg (by decide : ¬ ('[' : Char) = 't'),
            if_neg (by decide : ¬ ('[' : Char) = 'f'), if_neg (by decide : ¬ ('[' : Char) = '"'),
            if_pos trivial]
          rw [skipWs_not_ws (by decide)]
          rfl
        | cons x xs =>
          have hshape : jdumpC (.arr (x :: xs)) ++ rest
              = '[' :: (jdumpC x ++ (jdumpArr xs ++ (']' :: rest))) := by
            rw [jdumpC]
            simp [List.append_assoc]
          rw [hshape]
          rw [jwf] at hwf
          rw [jwfL] at hwf
          simp only [Bool.and_eq_true] at hwf
          obtain ⟨hx, hxs⟩ := hwf
          rw [jfuel] at hfuel
          simp only [parseValue]
          rw [if_neg (by decide : ¬ ('[' : Char) = 'n'), if_neg (by decide : ¬ ('[' : Char) = 't'),
            if_neg (by decide : ¬ ('[' : Char) = 'f'), if_neg (by decide : ¬ ('[' : Char) = '"'),
            if_pos trivial]
          rw [skipWs_jdumpC]
          obtain ⟨c1, cs1, hc1, hw1, hne1, hne2⟩ := jdumpC_head_not_ws x
          rw [hc1, List.cons_append]
          split
          · next r2 heq => exact absurd (List.cons.inj heq).1 hne1
          · next hnp =>
            rw [← List.cons_append, ← hc1]
            rw [ihA x xs rest hx hxs (by omega) hstop]
            rfl
      | obj kvs =>
        cases kvs with
        | nil =>
          have hshape : jdumpC (.obj []) ++ rest = lbrace :: (rbrace :: rest) := by
            rw [jdumpC]
            rfl
          rw [hshape]
          simp only [parseValue]
          rw [if_neg (by decide : ¬ lbrace = 'n'), if_neg (by decide : ¬ lbrace = 't'),
            if_neg (by decide : ¬ lbrace = 'f'), if_neg (by decide : ¬ lbrace = '"'),
            if_neg (by decide : ¬ lbrace = '['), if_pos trivial]
          rw [skipWs_not_ws (by decide)]
          rfl
        | cons kv kvs =>
          obtain ⟨k, v⟩ := kv
          have hshape : jdumpC (.obj ((k, v) :: kvs)) ++ rest
              = lbrace :: (jdumpKV (k, v) ++ (jdumpObj kvs ++ (rbrace :: rest))) := by
            rw [jdumpC]
            simp [List.append_assoc]
          rw [hshape]
          rw [jwf] at hwf
          have hwfO := hwf
          rw [jwfO] at hwf
          simp only [Bool.and_eq_true, Bool.not_eq_true'] at hwf
          obtain ⟨⟨hnk, hv⟩, hkvs⟩ := hwf
          rw [jfuel] at hfuel
          simp only [parseValue]
          rw [if_neg (by decide : ¬ lbrace = 'n'), if_neg (by decide : ¬ lbrace = 't'),
            if_neg (by decide : ¬ lbrace = 'f'), if_neg (by decide : ¬ lbrace = '"'),
            if_neg (by decide : ¬ lbrace = '['), if_pos trivial]
          rw [skipWs_jdumpKV]
          have hKVshape : jdumpKV (k, v) ++ (jdumpObj kvs ++ (rbrace :: rest))
              = '"' :: ((escChars k.data ++ ('"' :: ':' :: ' ' :: jdumpC v))
                  ++ (jdumpObj kvs ++ (rbrace :: rest))) := by
            rw [jdumpKV, List.cons_append]
          rw [hKVshape]
          split
          · next d r2 heq =>
            obtain ⟨hd, hr2⟩ := List.cons.inj heq
            subst hd
            subst hr2
            rw [if_neg (by decide : ¬ ('"' : Char) = rbrace)]
            rw [← hKVshape]
            rw [ihO k v kvs rest hv hkvs (by omega) hstop]
            simp only [Option.map_some']
            rw [objFold_self ((k, v) :: kvs) hwfO]
          · next heq => exact absurd heq (by simp)
    refine ⟨hValue, ?_, ?_⟩
    · intro x xs rest hx hxs hfuel hstop
      rw [jfuelA] at hfuel
      have hfx : jfuel x ≤ f := by
        have := le_max_left (jfuel x) (jfuelA xs)
        omega
      have hstopT : numStop (jdumpArr xs ++ (']' :: rest)) := numStop_arrTail xs rest hstop
      simp only [parseArrItems]
      rw [ihV x (jdumpArr xs ++ (']' :: rest)) hx hfx hstopT]
      cases xs with
      | nil =>
        simp [jdumpArr, skipWs_not_ws (by decide : isJsonWs ']' = false)]
      | cons y ys =>
        rw [jwfL] at hxs
        simp only [Bool.and_eq_true] at hxs
        obtain ⟨hy, hys⟩ := hxs
        have hfA : jfuelA (y :: ys) ≤ f := by
          have := le_max_right (jfuel x) (jfuelA (y :: ys))
          omega
        have hrec : parseArrItems f (skipWs (' ' :: (jdumpC y ++ (jdumpArr ys ++ (']' :: rest)))))
            = some (y :: ys, rest) := by
          rw [skipWs_ws (by decide), skipWs_jdumpC]
          exact ihA y ys rest hy hys hfA hstop
        have hsh : jdumpArr (y :: ys) ++ (']' :: rest)
            = ',' :: (' ' :: (jdumpC y ++ (jdumpArr ys ++ (']' :: rest)))) := by
          rw [jdumpArr]
          simp [List.append_assoc]
        rw [hsh]
        simp [skipWs_not_ws (by decide : isJsonWs ',' = false), hrec]
    · intro k v kvs rest hv hkvs hfuel hstop
      have hfuel2 : 1 + max (jfuel v) (jfuelO kvs) ≤ f + 1 := by
        rw [jfuelO] at hfuel
        exact hfuel
      have hfv : jfuel v ≤ f := by
        have := le_max_left (jfuel v) (jfuelO kvs)
        omega
      have hkv : jdumpKV (k, v) ++ (jdumpObj kvs ++ (rbrace :: rest))
          = '"' :: (escChars k.data ++ ('"' :: (':' :: (' ' ::
              (jdumpC v ++ (jdumpObj kvs ++ (rbrace :: rest))))))) := by
        rw [jdumpKV]
        simp [List.append_assoc]
      rw [hkv]
      simp only [parseObjItems]
      have hesc := parseStringBody_esc k.data
        (':' :: (' ' :: (jdumpC v ++ (jdumpObj kvs ++ (rbrace :: rest)))))
      rw [hesc]
      have hval : parseValue f (skipWs (' ' :: (jdumpC v ++ (jdumpObj kvs ++ (rbrace :: rest)))))
          = some (v, jdumpObj kvs ++ (rbrace :: rest)) := by
        rw [skipWs_ws (by decide), skipWs_jdumpC]
        exact ihV v _ hv hfv (numStop_objTail kvs rest)
      cases kvs with
      | nil =>
        simp only [jdumpObj, List.nil_append] at hval
        simp [jdumpObj, skipWs_not_ws (by decide : isJsonWs ':' = false), hval,
          skipWs_not_ws (by decide : isJsonWs rbrace = false)]
        rfl
      | cons kv2 kvs2 =>
        obtain ⟨k2, v2⟩ := kv2
        rw [jwfO] at hkvs
        simp only [Bool.and_eq_true, Bool.not_eq_true'] at hkvs
        obtain ⟨⟨hnk2, hv2⟩, hkvs2⟩ := hkvs
        have hfO : jfuelO ((k2, v2) :: kvs2) ≤ f := by
          have := le_max_right (jfuel v) (jfuelO ((k2, v2) :: kvs2))
          omega
        have hrec : parseObjItems f
            (skipWs (' ' :: (jdumpKV (k2, v2) ++ (jdumpObj kvs2 ++ (rbrace :: rest)))))
            = some ((k2, v2) :: kvs2, rest) := by
          rw [skipWs_ws (by decide), skipWs_jdumpKV]
          exact ihO k2 v2 kvs2 rest hv2 hkvs2 hfO hstop
        have hsh : jdumpObj ((k2, v2) :: kvs2) ++ (rbrace :: rest)
            = ',' :: (' ' :: (jdumpKV (k2, v2) ++ (jdumpObj kvs2 ++ (rbrace :: rest)))) := by
          rw [jdumpObj]
          simp [List.append_assoc]
        rw [hsh] at hval ⊢
        simp [skipWs_not_ws (by decide : isJsonWs ':' = false),
          skipWs_not_ws (by decide : isJsonWs ',' = false), hval, hrec]

mutual
theorem jfuel_le_dump : ∀ v : Json, jfuel v ≤ (jdumpC v).length + 1
| .null => by simp [jfuel, jdumpC]
| .bool b => by cases b <;> simp [jfuel, jdumpC]
| .num m e => by simp [jfuel]
| .str s => by simp [jfuel]
| .arr [] => by simp [jfuel, jfuelA, jdumpC]
| .arr (x :: xs) => by
  have h := jfuelA_le_dump x xs
  simp only [jfuel, jdumpC, List.length_append, List.length_cons] at *
  omega
| .obj [] => by simp [jfuel, jfuelO, jdumpC]
| .obj ((k, v) :: kvs) => by
  have h := jfuelO_le_dump k v kvs
  simp only [jfuel, jdumpC, List.length_append, List.length_cons] at *
  omega
termination_by v => sizeOf v
decreasing_by
all_goals simp_wf
all_goals omega

theorem jfuelA_le_dump : ∀ (x : Json) (xs : List Json),
    jfuelA (x :: xs) ≤ (jdumpC x ++ jdumpArr xs).length + 2
| x, [] => by
  have h := jfuel_le_dump x
  simp only [jfuelA, jdumpArr, List.append_nil, List.length_append, List.length_nil]
  omega
| x, y :: ys => by
  have h1 := jfuel_le_dump x
  have h2 := jfuelA_le_dump y ys
  simp only [jfuelA, jdumpArr, List.length_append, List.length_cons] at *
  omega
termination_by x xs => sizeOf x + sizeOf xs
decreasing_by
all_goals simp_wf
all_goals omega

theorem jfuelO_le_dump : ∀ (k : String) (v : Json) (kvs : List (String × Json)),
    jfuelO ((k, v) :: kvs) ≤ (jdumpKV (k, v) ++ jdumpObj kvs).length + 2
| k, v, [] => by
  have h := jfuel_le_dump v
  simp only [jfuelO, jdumpObj, jdumpKV, List.append_nil, List.length_append,
    List.length_cons]
  omega
| k, v, (k2, v2) :: kvs2 => by
  have h1 := jfuel_le_dump v
  have h2 := jfuelO_le_dump k2 v2 kvs2
  simp only [jfuelO, jdumpObj, jdumpKV, List.length_append, List.length_cons] at *
  omega
termination_by k v kvs => sizeOf v + sizeOf kvs
decreasing_by
all_goals simp_wf
all_goals omega
end

theorem loads_dumps (v : Json) (h : jwf v = true) : loads (dumps v) = some v := by
  have hskip : skipWs (jdumpC v) = jdumpC v := by
    have hx := skipWs_jdumpC v []
    simpa using hx
  have hbound : jfuel v ≤ (jdumpC v).length + 1 := jfuel_le_dump v
  have hparse : parseValue ((jdumpC v).length + 1) (jdumpC v ++ []) = some (v, []) :=
    (parse_dump_main ((jdumpC v).length + 1)).1 v [] h (by simpa using hbound) trivial
  rw [List.append_nil] at hparse
  show loadsC (jdumpC v) = some v
  rw [loadsC]
  simp only [hskip, hparse]
  rfl

theorem hasKey_objInsert (acc : List (String × Json)) (k : String) (v : Json) (k2 : String) :
    hasKey (objInsert acc k v) k2 = (hasKey acc k2 || (k == k2)) := by
  induction acc with
  | nil => simp [objInsert, hasKey]
  | cons kv acc ih =>
    obtain ⟨k0, v0⟩ := kv
    by_cases hk : k0 = k
    · subst hk
      rw [objInsert, if_pos rfl]
      simp only [hasKey, List.any_cons]
      by_cases he : (k0 == k2)
      · simp [he]
      · simp [he]
    · rw [objInsert, if_neg hk]
      simp only [hasKey, List.any_cons] at *
      rw [ih]
      by_cases he : (k0 == k2)
      · simp [he]
      · simp [he]

theorem jwfO_objInsert (acc : List (String × Json)) (k : String) (v : Json)
    (ha : jwfO acc = true) (hv : jwf v = true) : jwfO (objInsert acc k v) = true := by
  induction acc with
  | nil => simp [objInsert, jwfO, hasKey, hv]
  | cons kv acc ih =>
    obtain ⟨k0, v0⟩ := kv
    rw [jwfO] at ha
    simp only [Bool.and_eq_true, Bool.not_eq_true'] at ha
    obtain ⟨⟨hnk0, hv0⟩, hacc⟩ := ha
    by_cases hk : k0 = k
    · subst hk
      rw [objInsert, if_pos rfl, jwfO]
      simp [hnk0, hv, hacc]
    · rw [objInsert, if_neg hk, jwfO]
      simp only [Bool.and_eq_true, Bool.not_eq_true']
      refine ⟨⟨?_, hv0⟩, ih hacc⟩
      rw [hasKey_objInsert]
      simp only [Bool.or_eq_false_iff]
      refine ⟨hnk0, ?_⟩
      simp only [beq_eq_false_iff_ne, ne_eq]
      intro hc
      exact hk hc.symm

theorem objFold_wf (pairs : List (String × Json))
    (h : ∀ kv ∈ pairs, jwf kv.2 = true) : jwfO (objFold pairs) = true := by
  have hgen : ∀ (ps : List (String × Json)) (acc : List (String × Json)),
      (∀ kv ∈ ps, jwf kv.2 = true) → jwfO acc = true →
      jwfO (List.foldl (fun a kv => objInsert a kv.1 kv.2) acc ps) = true := by
    intro ps
    induction ps with
    | nil => intro acc _ hacc; simpa using hacc
    | cons kv ps ih =>
      intro acc hps hacc
      simp only [List.foldl]
      exact ih _ (fun kv2 h2 => hps kv2 (by simp [h2]))
        (jwfO_objInsert acc kv.1 kv.2 hacc (hps kv (by simp)))
  exact hgen pairs [] h rfl

theorem parseObjItems_none (f : Nat) (l : List Char)
    (h : l = [] ∨ ∃ c t, l = c :: t ∧ ¬ c = '"') : parseObjItems (f + 1) l = none := by
  rcases h with rfl | ⟨c, t, rfl, hc⟩
  · rw [parseObjItems.eq_def]
  · rw [parseObjItems.eq_def]
    split
    all_goals first | rfl | simp_all

theorem parse_wf_main : ∀ f : Nat,
    (∀ l v r, parseValue f l = some (v, r) → jwf v = true)
  ∧ (∀ l xs r, parseArrItems f l = some (xs, r) → jwfL xs = true)
  ∧ (∀ l kvs r, parseObjItems f l = some (kvs, r) → ∀ kv ∈ kvs, jwf kv.2 = true) := by
  intro f
  induction f with
  | zero =>
    refine ⟨?_, ?_, ?_⟩
    · intro l v r h
      rw [parseValue] at h
      cases h
    · intro l xs r h
      rw [parseArrItems] at h
      cases h
    · intro l kvs r h
      rw [parseObjItems] at h
      cases h
  | succ f ih =>
    obtain ⟨ihV, ihA, ihO⟩ := ih
    refine ⟨?_, ?_, ?_⟩
    · intro l v r h
      cases l with
      | nil => rw [parseValue] at h; cases h
      | cons c t =>
        simp only [parseValue] at h
        split at h
        · split at h
          · obtain ⟨rfl, -⟩ := Prod.mk.inj (Option.some.inj h)
            rfl
          · cases h
        · split at h
          · split at h
            · obtain ⟨rfl, -⟩ := Prod.mk.inj (Option.some.inj h)
              rfl
            · cases h
          · split at h
            · split at h
              · obtain ⟨rfl, -⟩ := Prod.mk.inj (Option.some.inj h)
                rfl
              · cases h
            · split at h
              · rw [Option.map_eq_some'] at h
                obtain ⟨p, -, hp⟩ := h
                obtain ⟨rfl, -⟩ := Prod.mk.inj hp
                rfl
              · split at h
                · split at h
                  · obtain ⟨rfl, -⟩ := Prod.mk.inj (Option.some.inj h)
                    rfl
                  · rw [Option.map_eq_some'] at h
                    obtain ⟨p, hp1, hp2⟩ := h
                    obtain ⟨rfl, -⟩ := Prod.mk.inj hp2
                    rw [jwf]
                    exact ihA _ _ _ hp1
                · split at h
                  · split at h
                    · split at h
                      · obtain ⟨rfl, -⟩ := Prod.mk.inj (Option.some.inj h)
                        rfl
                      · rw [Option.map_eq_some'] at h
                        obtain ⟨p, hp1, hp2⟩ := h
                        obtain ⟨rfl, -⟩ := Prod.mk.inj hp2
                        rw [jwf]
                        exact objFold_wf p.1 (ihO _ _ _ hp1)
                    · cases h
                  · rw [Option.map_eq_some'] at h
                    obtain ⟨p, -, hp⟩ := h
                    obtain ⟨rfl, -⟩ := Prod.mk.inj hp
                    rfl
    · intro l xs r h
      simp only [parseArrItems] at h
      split at h
      · cases h
      · next v1 r1 heq =>
        split at h
        · rw [Option.map_eq_some'] at h
          obtain ⟨p, hp1, hp2⟩ := h
          obtain ⟨rfl, -⟩ := Prod.mk.inj hp2
          rw [jwfL]
          simp only [Bool.and_eq_true]
          exact ⟨ihV _ _ _ heq, ihA _ _ _ hp1⟩
        · obtain ⟨rfl, -⟩ := Prod.mk.inj (Option.some.inj h)
          rw [jwfL]
          simp only [Bool.and_eq_true]
          exact ⟨ihV _ _ _ heq, rfl⟩
        · cases h
    · intro l kvs r h
      cases l with
      | nil =>
        rw [parseObjItems_none f [] (Or.inl rfl)] at h
        cases h
      | cons c t =>
        by_cases hc : c = '"'
        swap
        · rw [parseObjItems_none f _ (Or.inr ⟨c, t, rfl, hc⟩)] at h
          cases h
        subst hc
        simp only [parseObjItems] at h
        split at h
        · cases h
        · split at h
          · split at h
            · cases h
            · next v1 r4 heqv =>
                split at h
                · rw [Option.map_eq_some'] at h
                  obtain ⟨p, hp1, hp2⟩ := h
                  obtain ⟨rfl, -⟩ := Prod.mk.inj hp2
                  intro kv hkv
                  simp only [List.mem_cons] at hkv
                  rcases hkv with rfl | hkv
                  · exact ihV _ _ _ heqv
                  · exact ihO _ _ _ hp1 kv hkv
                · split at h
                  · obtain ⟨rfl, -⟩ := Prod.mk.inj (Option.some.inj h)
                    intro kv hkv
                    simp only [List.mem_singleton] at hkv
                    subst hkv
                    exact ihV _ _ _ heqv
                  · cases h
                · cases h
          · cases h

theorem loads_wf (s : String) (v : Json) (h : loads s = some v) : jwf v = true := by
  rw [loads, loadsC] at h
  split at h
  · next v1 r1 heq =>
    split at h
    · obtain rfl := Option.some.inj h
      exact (parse_wf_main _).1 _ _ _ heq
    · cases h
  · cases h

/-- Round trip for any parser output: re-serializing and re-parsing is the
identity on the parsed structure. -/
theorem loads_dumps_loads (s : String) (v : Json) (h : loads s = some v) :
    loads (dumps v) = some v :=
  loads_dumps v (loads_wf s v h)

/-! ### UTF-8 codec (strict, as Python `bytes.decode('utf-8')` /
`str.encode('utf-8')`) -/

/-- UTF-8 encoding of one scalar value. -/
def utf8EncodeChar (c : Char) : List Nat :=
  let n := c.toNat
  if n < 128 then [n]
  else if n < 2048 then [192 + n / 64, 128 + n % 64]
  else if n < 65536 then [224 + n / 4096, 128 + n / 64 % 64, 128 + n % 64]
  else [240 + n / 262144, 128 + n / 4096 % 64, 128 + n / 64 % 64, 128 + n % 64]

/-- UTF-8 encoding of a character sequence. -/
def utf8Encode (s : List Char) : List Nat := s.flatMap utf8EncodeChar

/-- Continuation of a 2-byte UTF-8 sequence with lead byte `b`. -/
def utf8Cont1 (b : Nat) : List Nat → Option (Char × List Nat)
| c1 :: rest2 =>
  if 128 ≤ c1 ∧ c1 ≤ 191 then
    some (Char.ofNat ((b - 192) * 64 + (c1 - 128)), rest2)
  else none
| [] => none

/-- Lower bound of the first continuation byte of a 3-byte sequence
(excludes overlong forms after `E0`). -/
def utf8Lo2 (b : Nat) : Nat := if b = 224 then 160 else 128

/-- Upper bound of the first continuation byte of a 3-byte sequence
(excludes surrogates after `ED`). -/
def utf8Hi2 (b : Nat) : Nat := if b = 237 then 159 else 191

/-- Continuation of a 3-byte UTF-8 sequence with lead byte `b` (the first
continuation range depends on `b` to exclude overlong forms and
surrogates). -/
def utf8Cont2 (b : Nat) : List Nat → Option (Char × List Nat)
| c1 :: c2 :: rest2 =>
  if (utf8Lo2 b ≤ c1 ∧ c1 ≤ utf8Hi2 b) ∧ (128 ≤ c2 ∧ c2 ≤ 191) then
    some (Char.ofNat ((b - 224) * 4096 + (c1 - 128) * 64 + (c2 - 128)), rest2)
  else none
| _ => none

/-- Lower bound of the first continuation byte of a 4-byte sequence
(excludes overlong forms after `F0`). -/
def utf8Lo3 (b : Nat) : Nat := if b = 240 then 144 else 128

/-- Upper bound of the first continuation byte of a 4-byte sequence
(excludes values beyond U+10FFFF after `F4`). -/
def utf8Hi3 (b : Nat) : Nat := if b = 244 then 143 else 191

/-- Continuation of a 4-byte UTF-8 sequence with lead byte `b`. -/
def utf8Cont3 (b : Nat) : List Nat → Option (Char × List Nat)
| c1 :: c2 :: c3 :: rest2 =>
  if (utf8Lo3 b ≤ c1 ∧ c1 ≤ utf8Hi3 b) ∧ (128 ≤ c2 ∧ c2 ≤ 191) ∧ (128 ≤ c3 ∧ c3 ≤ 191) then
    some (Char.ofNat ((b - 240) * 262144 + (c1 - 128) * 4096
      + (c2 - 128) * 64 + (c3 - 128)), rest2)
  else none
| _ => none

/-- Decode one UTF-8 scalar from the head of a byte list. -/
def utf8Step : List Nat → Option (Char × List Nat)
| [] => none
| b :: rest =>
  if b < 128 then some (Char.ofNat b, rest)
  else if 194 ≤ b ∧ b ≤ 223 then utf8Cont1 b rest
  else if 224 ≤ b ∧ b ≤ 239 then utf8Cont2 b rest
  else if 240 ≤ b ∧ b ≤ 244 then utf8Cont3 b rest
  else none

theorem utf8Step_shrink : ∀ (l : List Nat) (c : Char) (rest : List Nat),
    utf8Step l = some (c, rest) → rest.length < l.length := by
  intro l c rest h
  match l with
  | [] => cases h
  | b :: tl =>
    rw [utf8Step] at h
    split at h
    · obtain ⟨rfl, rfl⟩ := Prod.mk.inj (Option.some.inj h)
      simp
    · split at h
      · rw [utf8Cont1.eq_def] at h
        split at h
        · split at h
          · next c1 r2 =>
            obtain ⟨rfl, rfl⟩ := Prod.mk.inj (Option.some.inj h)
            simp
            omega
          · cases h
        · cases h
      · split at h
        · rw [utf8Cont2.eq_def] at h
          split at h
          · split at h
            · next c1 c2 r2 =>
              obtain ⟨rfl, rfl⟩ := Prod.mk.inj (Option.some.inj h)
              simp
              omega
            · cases h
          · cases h
        · split at h
          · rw [utf8Cont3.eq_def] at h
            split at h
            · split at h
              · next c1 c2 c3 r2 =>
                obtain ⟨rfl, rfl⟩ := Prod.mk.inj (Option.some.inj h)
                simp
                omega
              · cases h
            · cases h
          · cases h

/-- Fuel-indexed strict UTF-8 decoding loop; each step consumes at least
one byte, so fuel equal to the byte count always suffices. -/
def utf8DecodeGo : Nat → List Nat → Option (List Char)
| _, [] => some []
| 0, _ :: _ => none
| fuel + 1, b :: rest =>
  match utf8Step (b :: rest) with
  | some (c, rest2) => (utf8DecodeGo fuel rest2).map (fun s => c :: s)
  | none => none

/-- Strict UTF-8 decoding: rejects truncated sequences, overlong forms,
surrogates and values beyond U+10FFFF, exactly as Python's default
(strict) codec. -/
def utf8Decode (l : List Nat) : Option (List Char) :=
  utf8DecodeGo l.length l

theorem utf8EncodeChar_one (b : Nat) (h : b < 128) :
    utf8EncodeChar (Char.ofNat b) = [b] := by
  have hv : b.isValidChar := Or.inl (by omega)
  rw [utf8EncodeChar]
  simp only [toNat_ofNat_valid hv]
  rw [if_pos h]

theorem utf8EncodeChar_two (b c1 : Nat) (hb : 194 ≤ b ∧ b ≤ 223) (hc : 128 ≤ c1 ∧ c1 ≤ 191) :
    utf8EncodeChar (Char.ofNat ((b - 192) * 64 + (c1 - 128))) = [b, c1] := by
  have hv : ((b - 192) * 64 + (c1 - 128)).isValidChar := Or.inl (by omega)
  rw [utf8EncodeChar]
  simp only [toNat_ofNat_valid hv]
  rw [if_neg (by omega), if_pos (by omega)]
  simp only [List.cons.injEq, and_true]
  exact ⟨by omega, by omega⟩

theorem utf8EncodeChar_three (b c1 c2 : Nat) (hb : 224 ≤ b ∧ b ≤ 239)
    (hc1 : utf8Lo2 b ≤ c1 ∧ c1 ≤ utf8Hi2 b)
    (hc2 : 128 ≤ c2 ∧ c2 ≤ 191) :
    utf8EncodeChar (Char.ofNat ((b - 224) * 4096 + (c1 - 128) * 64 + (c2 - 128)))
      = [b, c1, c2] := by
  have hc1b : 128 ≤ c1 ∧ c1 ≤ 191 ∧ (b = 224 → 160 ≤ c1) ∧ (b = 237 → c1 ≤ 159) := by
    by_cases h4 : b = 224
    · rw [utf8Lo2, utf8Hi2, if_pos h4, if_neg (by omega)] at hc1
      exact ⟨by omega, hc1.2, fun _ => hc1.1, fun hx => by omega⟩
    · rw [utf8Lo2, utf8Hi2, if_neg h4] at hc1
      by_cases h7 : b = 237
      · rw [if_pos h7] at hc1
        exact ⟨hc1.1, by omega, fun hx => absurd hx h4, fun _ => hc1.2⟩
      · rw [if_neg h7] at hc1
        exact ⟨hc1.1, hc1.2, fun hx => absurd hx h4, fun hx => absurd hx h7⟩
  obtain ⟨hl, hr, h224, h237⟩ := hc1b
  have hv : ((b - 224) * 4096 + (c1 - 128) * 64 + (c2 - 128)).isValidChar := by
    by_cases h4 : b = 224
    · exact Or.inl (by have := h224 h4; omega)
    · by_cases h7 : b = 237
      · exact Or.inl (by have := h237 h7; omega)
      · rcases Nat.lt_or_ge b 237 with hlt | hge
        · exact Or.inl (by omega)
        · exact Or.inr ⟨by omega, by omega⟩
  rw [utf8EncodeChar]
  simp only [toNat_ofNat_valid hv]
  have hlow : 2048 ≤ (b - 224) * 4096 + (c1 - 128) * 64 + (c2 - 128) := by
    by_cases h4 : b = 224
    · have := h224 h4
      omega
    · omega
  rw [if_neg (by omega), if_neg (by omega), if_pos (by omega)]
  simp only [List.cons.injEq, and_true]
  exact ⟨by omega, by omega, by omega⟩

theorem utf8EncodeChar_four (b c1 c2 c3 : Nat) (hb : 240 ≤ b ∧ b ≤ 244)
    (hc1 : utf8Lo3 b ≤ c1 ∧ c1 ≤ utf8Hi3 b)
    (hc2 : 128 ≤ c2 ∧ c2 ≤ 191) (hc3 : 128 ≤ c3 ∧ c3 ≤ 191) :
    utf8EncodeChar (Char.ofNat ((b - 240) * 262144 + (c1 - 128) * 4096
        + (c2 - 128) * 64 + (c3 - 128))) = [b, c1, c2, c3] := by
  have hc1b : 128 ≤ c1 ∧ c1 ≤ 191 ∧ (b = 240 → 144 ≤ c1) ∧ (b = 244 → c1 ≤ 143) := by
    by_cases h0 : b = 240
    · rw [utf8Lo3, utf8Hi3, if_pos h0, if_neg (by omega)] at hc1
      exact ⟨by omega, hc1.2, fun _ => hc1.1, fun hx => by omega⟩
    · rw [utf8Lo3, utf8Hi3, if_neg h0] at hc1
      by_cases h4 : b = 244
      · rw [if_pos h4] at hc1
        exact ⟨hc1.1, by omega, fun hx => absurd hx h0, fun _ => hc1.2⟩
      · rw [if_neg h4] at hc1
        exact ⟨hc1.1, hc1.2, fun hx => absurd hx h0, fun hx => absurd hx h4⟩
  obtain ⟨hl, hr, h240, h244⟩ := hc1b
  have hlow : 65536 ≤ (b - 240) * 262144 + (c1 - 128) * 4096 + (c2 - 128) * 64 + (c3 - 128) := by
    by_cases h0 : b = 240
    · have := h240 h0
      omega
    · omega
  have hhigh : (b - 240) * 262144 + (c1 - 128) * 4096 + (c2 - 128) * 64 + (c3 - 128)
      < 1114112 := by
    by_cases h4 : b = 244
    · have := h244 h4
      omega
    · omega
  have hv : ((b - 240) * 262144 + (c1 - 128) * 4096 + (c2 - 128) * 64 + (c3 - 128)).isValidChar :=
    Or.inr ⟨by omega, hhigh⟩
  rw [utf8EncodeChar]
  simp only [toNat_ofNat_valid hv]
  rw [if_neg (by omega), if_neg (by omega), if_neg (by omega)]
  simp only [List.cons.injEq, and_true]
  exact ⟨by omega, by omega, by omega, by omega⟩

theorem utf8Step_encode : ∀ (l : List Nat) (c : Char) (rest : List Nat),
    utf8Step l = some (c, rest) → utf8EncodeChar c ++ rest = l := by
  intro l c rest h
  match l with
  | [] => cases h
  | b :: tl =>
    rw [utf8Step] at h
    split at h
    · next h1 =>
      obtain ⟨rfl, rfl⟩ := Prod.mk.inj (Option.some.inj h)
      rw [utf8EncodeChar_one b h1]
      rfl
    · split at h
      · next hb =>
        rw [utf8Cont1.eq_def] at h
        split at h
        · split at h
          · next c1 r2 hc1 =>
            obtain ⟨rfl, rfl⟩ := Prod.mk.inj (Option.some.inj h)
            rw [utf8EncodeChar_two b c1 hb hc1]
            rfl
          · cases h
        · cases h
      · split at h
        · next hb =>
          rw [utf8Cont2.eq_def] at h
          split at h
          · split at h
            · next c1 c2 r2 hcond =>
              obtain ⟨rfl, rfl⟩ := Prod.mk.inj (Option.some.inj h)
              rw [utf8EncodeChar_three b c1 c2 hb hcond.1 hcond.2]
              rfl
            · cases h
          · cases h
        · split at h
          · next hb =>
            rw [utf8Cont3.eq_def] at h
            split at h
            · split at h
              · next c1 c2 c3 r2 hcond =>
                obtain ⟨rfl, rfl⟩ := Prod.mk.inj (Option.some.inj h)
                rw [utf8EncodeChar_four b c1 c2 c3 hb hcond.1 hcond.2.1 hcond.2.2]
                rfl
              · cases h
            · cases h
          · cases h

theorem utf8_decode_encode : ∀ (n : Nat) (l : List Nat), l.length ≤ n →
    ∀ s, utf8DecodeGo n l = some s → utf8Encode s = l := by
  intro n
  induction n with
  | zero =>
    intro l hl s h
    have hnil : l = [] := List.length_eq_zero.mp (by omega)
    subst hnil
    rw [utf8DecodeGo] at h
    obtain rfl := Option.some.inj h
    rfl
  | succ n ih =>
    intro l hl s h
    cases l with
    | nil =>
      rw [utf8DecodeGo] at h
      obtain rfl := Option.some.inj h
      rfl
    | cons b rest =>
      rw [utf8DecodeGo] at h
      split at h
      · next c rest2 hstep =>
        rw [Option.map_eq_some'] at h
        obtain ⟨s2, hs2, rfl⟩ := h
        have hlen := utf8Step_shrink _ _ _ hstep
        have hrec := ih rest2 (by simp at hl hlen ⊢; omega) s2 hs2
        rw [utf8Encode, List.flatMap_cons, ← utf8Encode, hrec,
          utf8Step_encode _ _ _ hstep]
      · cases h

theorem utf8Decode_encode_inv (l : List Nat) (s : List Char) (h : utf8Decode l = some s) :
    utf8Encode s = l :=
  utf8_decode_encode l.length l (le_refl _) s h

/-! ### Base64 (as Python `base64.b64encode` / `base64.b64decode`) -/

/-- The standard base64 alphabet. -/
def b64table : List Char :=
  "ABCDEFGHIJKLMNOPQRSTUVWXYZabcdefghijklmnopqrstuvwxyz0123456789+/".data

/-- Character for a six-bit value. -/
def b64c (i : Nat) : Char := b64table.getD i '='

/-- `base64.b64encode`: three bytes become four alphabet characters, with
`=` padding for a final group of one or two bytes. -/
def b64encode : List Nat → List Char
| [] => []
| [a] => [b64c (a / 4), b64c (a % 4 * 16), '=', '=']
| [a, b] => [b64c (a / 4), b64c (a % 4 * 16 + b / 16), b64c (b % 16 * 4), '=']
| a :: b :: c :: rest =>
  b64c (a / 4) :: b64c (a % 4 * 16 + b / 16) :: b64c (b % 16 * 4 + c / 64)
    :: b64c (c % 64) :: b64encode rest

/-- Index of a character in a list of characters. -/
def b64idx (c : Char) : List Char → Option Nat
| [] => none
| x :: xs => if x = c then some 0 else (b64idx c xs).map (fun i => i + 1)

/-- Six-bit value of an alphabet character (`none` off the alphabet). -/
def b64v (c : Char) : Option Nat := b64idx c b64table

/-- `base64.b64decode` on well-padded input: groups of four characters
decode to three bytes, with trailing `=` padding shortening the final
group. -/
def b64decode : List Char → Option (List Nat)
| [] => some []
| c1 :: c2 :: c3 :: c4 :: rest =>
  if c3 = '=' ∧ c4 = '=' ∧ rest = [] then
    (b64v c1).bind fun v1 => (b64v c2).map fun v2 => [v1 * 4 + v2 / 16]
  else if c4 = '=' ∧ rest = [] then
    (b64v c1).bind fun v1 => (b64v c2).bind fun v2 => (b64v c3).map fun v3 =>
      [v1 * 4 + v2 / 16, v2 % 16 * 16 + v3 / 4]
  else
    (b64v c1).bind fun v1 => (b64v c2).bind fun v2 => (b64v c3).bind fun v3 =>
      (b64v c4).bind fun v4 => (b64decode rest).map fun bs =>
        (v1 * 4 + v2 / 16) :: ((v2 % 16 * 16 + v3 / 4) :: ((v3 % 4 * 64 + v4) :: bs))
| _ => none

theorem b64v_b64c : ∀ v : Nat, v < 64 → b64v (b64c v) = some v := by decide

theorem b64c_ne_pad : ∀ v : Nat, v < 64 → ¬(b64c v = '=') := by decide

theorem b64decode_encode : ∀ (bs : List Nat), (∀ x ∈ bs, x < 256) →
    b64decode (b64encode bs) = some bs
| [] => fun _ => rfl
| [a] => by
  intro h
  have ha : a < 256 := h a (by simp)
  rw [b64encode, b64decode, if_pos ⟨rfl, rfl, rfl⟩,
    b64v_b64c _ (by omega), b64v_b64c _ (by omega)]
  simp only [Option.some_bind, Option.map_some', Option.some.injEq, List.cons.injEq, and_true]
  omega
| [a, b] => by
  intro h
  have ha : a < 256 := h a (by simp)
  have hb : b < 256 := h b (by simp)
  rw [b64encode, b64decode,
    if_neg (fun hx => b64c_ne_pad (b % 16 * 4) (by omega) hx.1),
    if_pos ⟨rfl, rfl⟩,
    b64v_b64c _ (by omega), b64v_b64c _ (by omega), b64v_b64c _ (by omega)]
  simp only [Option.some_bind, Option.map_some', Option.some.injEq, List.cons.injEq, and_true]
  omega
| a :: b :: c :: rest => by
  intro h
  have ha : a < 256 := h a (by simp)
  have hb : b < 256 := h b (by simp)
  have hc : c < 256 := h c (by simp)
  have hrec := b64decode_encode rest (fun x hx => h x (by simp [hx]))
  rw [b64encode, b64decode,
    if_neg (fun hx => b64c_ne_pad (b % 16 * 4 + c / 64) (by omega) hx.1),
    if_neg (fun hx => b64c_ne_pad (c % 64) (by omega) hx.1),
    b64v_b64c _ (by omega), b64v_b64c _ (by omega), b64v_b64c _ (by omega),
    b64v_b64c _ (by omega), hrec]
  simp only [Option.some_bind, Option.map_some', Option.some.injEq, List.cons.injEq, and_true]
  refine ⟨by omega, by omega, by omega⟩

/-! ### `serialize_data` / `deserialize_data` -/

/-- `serialize_data` on a `bytes` payload (the branch exercised by request
and response bodies): try strict UTF-8 decoding; on success try JSON
parsing, returning the parsed value with tag `json` or the text with tag
`string`; on a decode error return the base64 encoding with tag
`base64`. -/
def serialize_data (data : List Nat) : Json × String :=
  match utf8Decode data with
  | some text =>
    match loads (String.mk text) with
    | some v => (v, "json")
    | none => (.str (String.mk text), "string")
  | none => (.str (String.mk (b64encode data)), "base64")

/-- A Python value produced by `deserialize_data`: either `bytes` or a
JSON-representable value (strings included). -/
inductive PyVal where
| bytes (b : List Nat)
| val (j : Json)
deriving Repr

/-- `deserialize_data`: tag `base64` base64-decodes a string payload; tag
`json` re-serializes a dict or list payload with `json.dumps`, parses and
re-serializes a string payload falling back to the string itself, and
raises `TypeError` on any other payload (`json.loads` of a number, boolean
or `None` raises `TypeError`, which the source catches nowhere); any other
tag returns the payload unchanged. -/
def deserialize_data (data : Json) (data_type : String) : Except String PyVal :=
  if data_type = "base64" then
    match data with
    | .str s =>
      match b64decode s.data with
      | some bs => .ok (.bytes bs)
      | none => .error "binascii.Error"
    | _ => .error "AttributeError"
  else if data_type = "json" then
    match data with
    | .obj kvs => .ok (.val (.str (dumps (.obj kvs))))
    | .arr xs => .ok (.val (.str (dumps (.arr xs))))
    | .str s =>
      match loads s with
      | some v => .ok (.val (.str (dumps v)))
      | none => .ok (.val (.str s))
    | _ => .error "TypeError"
  else .ok (.val data)

/-- The encode-then-decode composite of the two helpers. -/
def codec_roundtrip (b : List Nat) : Except String PyVal :=
  deserialize_data (serialize_data b).1 (serialize_data b).2

/-- C2 counterexample: the two-byte body `"42"` parses as JSON, so
`serialize_data` tags it `json` with a number payload, and
`deserialize_data` then applies `json.loads` to that number, raising
`TypeError`: the round trip produces no value at all, let alone a
structurally equal JSON text. -/
theorem C2_counterexample :
    (serialize_data [52, 50]).2 = "json"
    ∧ codec_roundtrip [52, 50] = .error "TypeError" :=
  ⟨rfl, rfl⟩

/-- C2 (amended): full characterization of the codec round trip on byte
bodies. Binary bodies (not UTF-8) survive exactly via base64; UTF-8 text
that is not JSON survives exactly as text; a JSON object or array body is
re-serialized to a structurally equal value; but a body parsing to a JSON
string is collapsed through a second parse, and a body parsing to a JSON
number, boolean or null makes `deserialize_data` raise `TypeError`. -/
theorem C2_codec_partial_roundtrip (b : List Nat) (hb : ∀ x ∈ b, x < 256) :
    (utf8Decode b = none → codec_roundtrip b = .ok (.bytes b))
    ∧ (∀ t, utf8Decode b = some t → loads (String.mk t) = none →
        codec_roundtrip b = .ok (.val (.str (String.mk t))) ∧ utf8Encode t = b)
    ∧ (∀ t kvs, utf8Decode b = some t → loads (String.mk t) = some (.obj kvs) →
        codec_roundtrip b = .ok (.val (.str (dumps (.obj kvs))))
        ∧ loads (dumps (.obj kvs)) = some (.obj kvs))
    ∧ (∀ t xs, utf8Decode b = some t → loads (String.mk t) = some (.arr xs) →
        codec_roundtrip b = .ok (.val (.str (dumps (.arr xs))))
        ∧ loads (dumps (.arr xs)) = some (.arr xs))
    ∧ (∀ t s w, utf8Decode b = some t → loads (String.mk t) = some (.str s) →
        loads s = some w → codec_roundtrip b = .ok (.val (.str (dumps w))))
    ∧ (∀ t s, utf8Decode b = some t → loads (String.mk t) = some (.str s) →
        loads s = none → codec_roundtrip b = .ok (.val (.str s)))
    ∧ (∀ t v, utf8Decode b = some t → loads (String.mk t) = some v →
        (∀ kvs, v ≠ .obj kvs) → (∀ xs, v ≠ .arr xs) → (∀ s, v ≠ .str s) →
        codec_roundtrip b = .error "TypeError") := by
  refine ⟨?_, ?_, ?_, ?_, ?_, ?_, ?_⟩
  · intro h
    rw [codec_roundtrip, serialize_data, h]
    rw [deserialize_data]
    rw [if_pos rfl]
    show (match b64decode (b64encode b) with
      | some bs => Except.ok (PyVal.bytes bs)
      | none => Except.error "binascii.Error") = _
    rw [b64decode_encode b hb]
  · intro t h1 h2
    rw [codec_roundtrip, serialize_data, h1]
    dsimp only
    rw [h2]
    dsimp only
    refine ⟨?_, utf8Decode_encode_inv b t h1⟩
    rw [deserialize_data, if_neg (by decide), if_neg (by decide)]
  · intro t kvs h1 h2
    rw [codec_roundtrip, serialize_data, h1]
    dsimp only
    rw [h2]
    dsimp only
    refine ⟨?_, loads_dumps_loads _ _ h2⟩
    rw [deserialize_data, if_neg (by decide), if_pos rfl]
  · intro t xs h1 h2
    rw [codec_roundtrip, serialize_data, h1]
    dsimp only
    rw [h2]
    dsimp only
    refine ⟨?_, loads_dumps_loads _ _ h2⟩
    rw [deserialize_data, if_neg (by decide), if_pos rfl]
  · intro t s w h1 h2 h3
    rw [codec_roundtrip, serialize_data, h1]
    dsimp only
    rw [h2]
    dsimp only
    rw [deserialize_data, if_neg (by decide), if_pos rfl]
    show (match loads s with
      | some w => Except.ok (PyVal.val (Json.str (dumps w)))
      | none => Except.ok (PyVal.val (Json.str s))) = _
    rw [h3]
  · intro t s h1 h2 h3
    rw [codec_roundtrip, serialize_data, h1]
    dsimp only
    rw [h2]
    dsimp only
    rw [deserialize_data, if_neg (by decide), if_pos rfl]
    show (match loads s with
      | some w => Except.ok (PyVal.val (Json.str (dumps w)))
      | none => Except.ok (PyVal.val (Json.str s))) = _
    rw [h3]
  · intro t v h1 h2 hno hna hns
    cases v with
    | obj kvs => exact absurd rfl (hno kvs)
    | arr xs => exact absurd rfl (hna xs)
    | str s => exact absurd rfl (hns s)
    | num m e =>
      rw [codec_roundtrip, serialize_data, h1]
      dsimp only
      rw [h2]
      rfl
    | bool bv =>
      rw [codec_roundtrip, serialize_data, h1]
      dsimp only
      rw [h2]
      rfl
    | null =>
      rw [codec_roundtrip, serialize_data, h1]
      dsimp only
      rw [h2]
      rfl

/-- Witness for the amended C2 theorem at concrete inputs from three of
its branches. -/
theorem C2_codec_partial_roundtrip_witness :
    codec_roundtrip [0, 255] = .ok (.bytes [0, 255])
    ∧ codec_roundtrip [104, 105] = .ok (.val (.str "hi"))
    ∧ codec_roundtrip [116, 114, 117, 101] = .error "TypeError" :=
  ⟨(C2_codec_partial_roundtrip [0, 255] (by decide)).1 rfl,
   ((C2_codec_partial_roundtrip [104, 105] (by decide)).2.1 "hi".data rfl rfl).1,
   (C2_codec_partial_roundtrip [116, 114, 117, 101] (by decide)).2.2.2.2.2.2
     "true".data (.bool true) rfl rfl
     (fun _ h => Json.noConfusion h) (fun _ h => Json.noConfusion h)
     (fun _ h => Json.noConfusion h)⟩

/-! ### SHA-256 (as `hashlib.sha256(...).hexdigest()`) -/

/-- Right rotation of a 32-bit word, arithmetically. -/
def rotr (n x : Nat) : Nat := x / 2 ^ n + x % 2 ^ n * 2 ^ (32 - n)

/-- The 64 SHA-256 round constants. -/
def sha256K : List Nat :=
  [1116352408, 1899447441, 3049323471, 3921009573, 961987163, 1508970993,
   2453635748, 2870763221, 3624381080, 310598401, 607225278, 1426881987,
   1925078388, 2162078206, 2614888103, 3248222580, 3835390401, 4022224774,
   264347078, 604807628, 770255983, 1249150122, 1555081692, 1996064986,
   2554220882, 2821834349, 2952996808, 3210313671, 3336571891, 3584528711,
   113926993, 338241895, 666307205, 773529912, 1294757372, 1396182291,
   1695183700, 1986661051, 2177026350, 2456956037, 2730485921, 2820302411,
   3259730800, 3345764771, 3516065817, 3600352804, 4094571909, 275423344,
   430227734, 506948616, 659060556, 883997877, 958139571, 1322822218,
   1537002063, 1747873779, 1955562222, 2024104815, 2227730452, 2361852424,
   2428436474, 2756734187, 3204031479, 3329325298]

/-- The SHA-256 initial hash state. -/
def sha256H0 : List Nat :=
  [1779033703, 3144134277, 1013904242, 2773480762,
   1359893119, 2600822924, 528734635, 1541459225]

/-- Big-endian byte expansion of `n` to `k` bytes. -/
def beBytes : Nat → Nat → List Nat
| 0, _ => []
| k + 1, n => beBytes k (n / 256) ++ [n % 256]

/-- SHA-256 padding: a `0x80` byte, zeros, and the 64-bit big-endian
bit length, to a multiple of 64 bytes. -/
def sha256Pad (msg : List Nat) : List Nat :=
  msg ++ 128 :: List.replicate ((119 - msg.length % 64) % 64) 0
    ++ beBytes 8 (msg.length * 8)

/-- Big-endian 32-bit words from bytes. -/
def bytesToWords : List Nat → List Nat
| b1 :: b2 :: b3 :: b4 :: rest =>
  (((b1 * 256 + b2) * 256 + b3) * 256 + b4) :: bytesToWords rest
| _ => []

/-- Word `i` of a schedule list (0 when out of range). -/
def wAt (w : List Nat) (i : Nat) : Nat := w.getD i 0

/-- Extend the 16-word schedule by `k` further words. -/
def buildW : Nat → List Nat → List Nat
| 0, w => w
| k + 1, w =>
  let i := w.length
  let s0 := rotr 7 (wAt w (i - 15)) ^^^ rotr 18 (wAt w (i - 15)) ^^^ wAt w (i - 15) / 2 ^ 3
  let s1 := rotr 17 (wAt w (i - 2)) ^^^ rotr 19 (wAt w (i - 2)) ^^^ wAt w (i - 2) / 2 ^ 10
  buildW k (w ++ [(wAt w (i - 16) + s0 + wAt w (i - 7) + s1) % 4294967296])

/-- The 64-round SHA-256 compression loop over constants and schedule. -/
def compressLoop : List Nat → List Nat → List Nat → List Nat
| k :: ks, w :: ws, [a, b, c, d, e, f, g, h] =>
  let s1 := rotr 6 e ^^^ rotr 11 e ^^^ rotr 25 e
  let ch := (e &&& f) ^^^ ((4294967295 - e) &&& g)
  let t1 := (h + s1 + ch + k + w) % 4294967296
  let s0 := rotr 2 a ^^^ rotr 13 a ^^^ rotr 22 a
  let mj := (a &&& b) ^^^ (a &&& c) ^^^ (b &&& c)
  let t2 := (s0 + mj) % 4294967296
  compressLoop ks ws [(t1 + t2) % 4294967296, a, b, c, (d + t1) % 4294967296, e, f, g]
| _, _, st => st

/-- Process `n` 64-byte chunks of a padded message. -/
def sha256ChunksGo : Nat → List Nat → List Nat → List Nat
| 0, _, hs => hs
| n + 1, bytes, hs =>
  let w := buildW 48 (bytesToWords (bytes.take 64))
  let st := compressLoop sha256K w hs
  sha256ChunksGo n (bytes.drop 64) (List.zipWith (fun h s => (h + s) % 4294967296) hs st)

/-- SHA-256 state words of a byte message. -/
def sha256Bytes (msg : List Nat) : List Nat :=
  sha256ChunksGo ((sha256Pad msg).length / 64) (sha256Pad msg) sha256H0

/-- Eight lowercase hex digits of a 32-bit word. -/
def wordHex (w : Nat) : List Char :=
  (List.range 8).map (fun i => hexDigitChar (w / 16 ^ (7 - i) % 16))

/-- `hashlib.sha256(msg).hexdigest()`. -/
def sha256hex (msg : List Nat) : String :=
  String.mk ((sha256Bytes msg).flatMap wordHex)

/-! ### `json.dumps(..., indent=2)` -/

/-- `lv` spaces. -/
def indChars (lv : Nat) : List Char := List.replicate lv ' '

mutual

/-- `json.dumps` with `indent=2` at current indentation `lv` (spaces):
items of a non-empty container each start on a new line indented two
further spaces, separated by bare commas, with the closing bracket on its
own line at the enclosing indentation. -/
def jdumpIC (lv : Nat) : Json → List Char
| .null => "null".data
| .bool true => "true".data
| .bool false => "false".data
| .num m e => intChars m ++ (if e = 0 then [] else 'e' :: intChars e)
| .str s => '"' :: (escChars s.data ++ ['"'])
| .arr [] => ['[', ']']
| .arr (x :: xs) =>
  '[' :: '\n' :: (indChars (lv + 2) ++ jdumpIC (lv + 2) x ++ jdumpIArr (lv + 2) xs
    ++ '\n' :: indChars lv ++ [']'])
| .obj [] => [lbrace, rbrace]
| .obj (kv :: kvs) =>
  lbrace :: '\n' :: (indChars (lv + 2) ++ jdumpIKV (lv + 2) kv ++ jdumpIObj (lv + 2) kvs
    ++ '\n' :: indChars lv ++ [rbrace])

/-- Remaining array elements, each preceded by a comma and newline. -/
def jdumpIArr (lv : Nat) : List Json → List Char
| [] => []
| x :: xs => ',' :: '\n' :: (indChars lv ++ jdumpIC lv x ++ jdumpIArr lv xs)

/-- One `"key": value` entry at indentation `lv`. -/
def jdumpIKV (lv : Nat) : String × Json → List Char
| (k, v) => '"' :: (escChars k.data ++ ('"' :: ':' :: ' ' :: jdumpIC lv v))

/-- Remaining object entries, each preceded by a comma and newline. -/
def jdumpIObj (lv : Nat) : List (String × Json) → List Char
| [] => []
| kv :: kvs => ',' :: '\n' :: (indChars lv ++ jdumpIKV lv kv ++ jdumpIObj lv kvs)

end

/-- `json.dumps(v, indent=2)` as a string. -/
def dumpsIndent (v : Json) : String := ⟨jdumpIC 0 v⟩

/-! ### Client identity: header filtering, path flattening, hashing -/

/-- Headers used for cache key generation. -/
def HASH_HEADERS : List String := ["content-type"]

/-- Additional headers for picky caching. -/
def HASH_HEADERS_PICKY : List String := ["authorization", "xproxy-api-key", "api-key"]

/-- Headers passed to the server. -/
def PASS_HEADERS : List String := ["content-type", "authorization"]

/-- `str.lower()` on ASCII text (HTTP header names are ASCII). -/
def asciiLower (c : Char) : Char :=
  if 65 ≤ c.toNat ∧ c.toNat ≤ 90 then Char.ofNat (c.toNat + 32) else c

/-- `key.lower()` for a header name. -/
def lowerStr (s : String) : String := String.mk (s.data.map asciiLower)

/-- `str.startswith`. -/
def strStartsWith (s pre : String) : Bool := pre.data.isPrefixOf s.data

/-- `dict` insertion: an existing key keeps its position and takes the new
value; a new key is appended. -/
def hdrInsert (m : List (String × String)) (k v : String) : List (String × String) :=
  if m.any (fun p => p.1 = k) then m.map (fun p => if p.1 = k then (k, v) else p)
  else m ++ [(k, v)]

/-- The hash-relevant header allowlist: `HASH_HEADERS`, extended by the
picky set under `--cache-picky`. -/
def hashHeaderNames (picky : Bool) : List String :=
  HASH_HEADERS ++ if picky then HASH_HEADERS_PICKY else []

/-- Keep a header for hashing when its lowercase name is allowlisted or
starts with `x-` or `xproxy-`. -/
def keepForHash (picky : Bool) (key : String) : Bool :=
  (hashHeaderNames picky).contains (lowerStr key)
    || strStartsWith (lowerStr key) "x-" || strStartsWith (lowerStr key) "xproxy-"

/-- `allowed_headers`: the inbound headers filtered by `keepForHash`,
accumulated into a `dict` preserving original name casing. -/
def allowedHeaders (picky : Bool) (hs : List (String × String)) : List (String × String) :=
  hs.foldl (fun m p => if keepForHash picky p.1 then hdrInsert m p.1 p.2 else m) []

/-- Keep a header for forwarding when its lowercase name is in
`PASS_HEADERS` or starts with `x-` or `xproxy-`. -/
def keepForServer (key : String) : Bool :=
  PASS_HEADERS.contains (lowerStr key)
    || strStartsWith (lowerStr key) "x-" || strStartsWith (lowerStr key) "xproxy-"

/-- `server_headers`: the inbound headers filtered by `keepForServer`. -/
def serverHeaders (hs : List (String × String)) : List (String × String) :=
  hs.foldl (fun m p => if keepForServer p.1 then hdrInsert m p.1 p.2 else m) []

/-- `flatten_path_for_filename`: non-alphanumerics other than dashes
become underscores. -/
def flattenChar (c : Char) : Char :=
  if (97 ≤ c.toNat ∧ c.toNat ≤ 122) ∨ (65 ≤ c.toNat ∧ c.toNat ≤ 90)
      ∨ (48 ≤ c.toNat ∧ c.toNat ≤ 57) ∨ c = '-' then c else '_'

/-- Collapse runs of underscores to a single underscore. -/
def collapseU : List Char → List Char
| [] => []
| c :: rest =>
  let r := collapseU rest
  if c = '_' then
    match r with
    | '_' :: _ => r
    | _ => c :: r
  else c :: r

/-- `flatten_path_for_filename`: substitute, collapse underscores, strip
leading underscores and dashes, truncate to 100 characters, defaulting to
`root` when nothing remains. -/
def flatten_path_for_filename (path : String) : String :=
  let flattened := ((collapseU (path.data.map flattenChar)).dropWhile
    (fun c => c = '_' ∨ c = '-')).take 100
  if flattened = [] then "root" else String.mk flattened

/-- An inbound client request after routing: the folder, the remaining
subpath, and the raw headers and body, plus the arrival timestamp (which
identity must ignore). -/
structure ClientRequest where
  method : String
  folder : String
  subpath : String
  query_string : String
  headers : List (String × String)
  body : List Nat
  now : String

/-- `(payload_data, payload_type)`: an empty body short-circuits to
`('', 'string')`, otherwise `serialize_data` runs. -/
def payloadOf (body : List Nat) : Json × String :=
  if body = [] then (.str "", "string") else serialize_data body

/-- `request_core`: the exact seven-key object whose `indent=2` JSON
serialization is hashed, in insertion order, with headers keeping their
original casing and order. -/
def request_core (picky : Bool) (r : ClientRequest) : Json :=
  .obj [("method", .str r.method),
        ("path", .str r.subpath),
        ("query_string", .str r.query_string),
        ("folder", .str r.folder),
        ("headers", .obj ((allowedHeaders picky r.headers).map (fun p => (p.1, Json.str p.2)))),
        ("payload", (payloadOf r.body).1),
        ("type", .str (payloadOf r.body).2)]

/-- The identity file name: flattened subpath, underscore, SHA-256 hex of
the UTF-8 bytes of the `indent=2` serialization of `request_core`, and the
`.json` suffix. -/
def identityName (picky : Bool) (r : ClientRequest) : String :=
  flatten_path_for_filename r.subpath ++ "_"
    ++ sha256hex (utf8Encode (dumpsIndent (request_core picky r)).data) ++ ".json"

/-- C1: two requests identical in method, path, query string, folder,
hash-relevant filtered headers, and body payload/type compute the same
identity name
(flattened prefix and SHA-256 hash), whatever their timestamps and
whatever their other headers. -/
theorem C1_identity_deterministic (picky : Bool) (r1 r2 : ClientRequest)
    (hm : r1.method = r2.method) (hp : r1.subpath = r2.subpath)
    (hq : r1.query_string = r2.query_string) (hf : r1.folder = r2.folder)
    (hh : allowedHeaders picky r1.headers = allowedHeaders picky r2.headers)
    (hb : payloadOf r1.body = payloadOf r2.body) :
    identityName picky r1 = identityName picky r2 := by
  rw [identityName, identityName, request_core, request_core, hm, hp, hq, hf, hh, hb]

/-- Witness for C1: two concrete requests differing in timestamp and in a
header outside the allowlist get the same identity name. -/
theorem C1_identity_deterministic_witness :
    identityName false ⟨"GET", "api", "users/list", "a=1",
      [("Content-Type", "application/json"), ("Accept-Language", "en")],
      [104, 105], "2024-01-01T00:00:00+00:00"⟩
    = identityName false ⟨"GET", "api", "users/list", "a=1",
      [("Content-Type", "application/json"), ("User-Agent", "curl/8.0")],
      [104, 105], "2025-06-30T12:34:56+00:00"⟩ :=
  C1_identity_deterministic false _ _ rfl rfl rfl rfl (by decide) rfl

/-- The C10 request pair: identical but for the casing of the
`Content-Type` header name. -/
def c10reqA : ClientRequest :=
  ⟨"GET", "api", "things", "", [("Content-Type", "text/plain")], [], "t1"⟩

/-- Second C10 request, lowercase header name. -/
def c10reqB : ClientRequest :=
  ⟨"GET", "api", "things", "", [("content-type", "text/plain")], [], "t2"⟩

/-! ### `CurlTemplateExecutor._parse_curl_output` -/

/-- ASCII whitespace stripped by `str.strip`. -/
def isPySpace (c : Char) : Bool :=
  c = ' ' || c = Char.ofNat 9 || c = Char.ofNat 10 || c = Char.ofNat 13
    || c = Char.ofNat 11 || c = Char.ofNat 12

/-- `str.strip()`. -/
def pyStrip (l : List Char) : List Char :=
  ((l.dropWhile isPySpace).reverse.dropWhile isPySpace).reverse

/-- Split accumulated characters at each newline. -/
def splitLinesGo : List Char → List Char → List (List Char)
| cur, [] => [cur.reverse]
| cur, c :: rest =>
  if c = '\n' then cur.reverse :: splitLinesGo [] rest else splitLinesGo (c :: cur) rest

/-- `str.splitlines()` for newline-separated text: no trailing empty line
after a final newline, and no lines at all for empty text. -/
def splitLines (l : List Char) : List (List Char) :=
  match l with
  | [] => []
  | _ =>
    let segs := splitLinesGo [] l
    if segs.getLast? = some [] then segs.dropLast else segs

/-- `line.split(" ", n)`: split at single spaces, at most `n` times. -/
def splitSpaceN : Nat → List Char → List (List Char)
| 0, l => [l]
| n + 1, l =>
  let pre := l.takeWhile (fun c => ¬(c = ' '))
  let rest := l.dropWhile (fun c => ¬(c = ' '))
  match rest with
  | [] => [l]
  | _ :: tl => pre :: splitSpaceN n tl

/-- `line.split(":", 1)`: the part before the first colon, and the part
after it when a colon is present. -/
def splitColon1 (l : List Char) : List Char × Option (List Char) :=
  let pre := l.takeWhile (fun c => ¬(c = ':'))
  match l.dropWhile (fun c => ¬(c = ':')) with
  | [] => (pre, none)
  | _ :: tl => (pre, some tl)

/-- `s.isdigit()` on ASCII text: nonempty and all digits. -/
def isDigits (l : List Char) : Bool := !l.isEmpty && l.all Char.isDigit

/-- Status code and text extracted from a stripped `< HTTP/` line:
`line.split(" ", 3)`, an integer third part (else `None`), and the
remainder as status text (else the empty string). -/
def statusFromLine (line : List Char) : Option Nat × String :=
  let parts := splitSpaceN 3 line
  (if 2 < parts.length ∧ isDigits (parts.getD 2 []) then some (digitsToNat (parts.getD 2 []))
   else none,
   if 3 < parts.length then String.mk (parts.getD 3 []) else "")

/-- Parser state for `_parse_curl_output`. -/
structure CurlParseState where
  status_code : Option Nat
  status_text : String
  headers : List (String × String)
  body_lines : List (List Char)

/-- One iteration of the `_parse_curl_output` loop: strip the line; skip
empty lines and bare markers; discard debug and request-header lines; a
`< HTTP/` line resets status code and text; a `< ` line inserts a
lowercased header name with its stripped value into the header `dict`;
anything else is body. -/
def parseCurlLine (st : CurlParseState) (raw : List Char) : CurlParseState :=
  let line := pyStrip raw
  if line = [] ∨ line = ['*'] ∨ line = ['<'] ∨ line = ['>'] then st
  else if "* ".data.isPrefixOf line then st
  else if "> ".data.isPrefixOf line then st
  else if "< HTTP/".data.isPrefixOf line then
    { st with status_code := (statusFromLine line).1, status_text := (statusFromLine line).2 }
  else if "< ".data.isPrefixOf line then
    let rest := line.drop 2
    let nv := splitColon1 rest
    let name := lowerStr (String.mk (pyStrip nv.1))
    let value := match nv.2 with
      | some v => String.mk (pyStrip v)
      | none => ""
    { st with headers := hdrInsert st.headers name value }
  else { st with body_lines := st.body_lines ++ [line] }

/-- The `_parse_curl_output` loop over a list of raw lines. -/
def parseCurlLines (ls : List (List Char)) : CurlParseState :=
  ls.foldl parseCurlLine ⟨none, "", [], []⟩

/-- `'\n'.join`. -/
def joinNL : List (List Char) → List Char
| [] => []
| [x] => x
| x :: xs => x ++ '\n' :: joinNL xs

/-- `_parse_curl_output`: fold the lines, then default a missing status
code to 204 and join the body lines. -/
def parse_curl_output (output : List Char) : Nat × String × List (String × String) × String :=
  let st := parseCurlLines (splitLines output)
  (st.status_code.getD 204, st.status_text, st.headers, String.mk (joinNL st.body_lines))

theorem parseCurlLine_status (st : CurlParseState) (l : List Char)
    (h : "< HTTP/".data.isPrefixOf (pyStrip l) = false) :
    (parseCurlLine st l).status_code = st.status_code
    ∧ (parseCurlLine st l).status_text = st.status_text := by
  rw [parseCurlLine]
  dsimp only
  split
  · exact ⟨rfl, rfl⟩
  · split
    · exact ⟨rfl, rfl⟩
    · split
      · exact ⟨rfl, rfl⟩
      · split
        · next hcond => rw [h] at hcond; cases hcond
        · split
          · exact ⟨rfl, rfl⟩
          · exact ⟨rfl, rfl⟩

theorem parseCurlLines_go_status (ls : List (List Char)) (st : CurlParseState)
    (h : ∀ l ∈ ls, "< HTTP/".data.isPrefixOf (pyStrip l) = false) :
    (ls.foldl parseCurlLine st).status_code = st.status_code
    ∧ (ls.foldl parseCurlLine st).status_text = st.status_text := by
  induction ls generalizing st with
  | nil => exact ⟨rfl, rfl⟩
  | cons x xs ih =>
    have hx := parseCurlLine_status st x (h x (by simp))
    have hr := ih (parseCurlLine st x) (fun l hl => h l (by simp [hl]))
    simp only [List.foldl_cons]
    exact ⟨hr.1.trans hx.1, hr.2.trans hx.2⟩

theorem parseCurlLine_statusline (st : CurlParseState) (l : List Char)
    (h : "< HTTP/".data.isPrefixOf (pyStrip l) = true) :
    (parseCurlLine st l).status_code = (statusFromLine (pyStrip l)).1
    ∧ (parseCurlLine st l).status_text = (statusFromLine (pyStrip l)).2 := by
  have hpre : "< HTTP/".data <+: pyStrip l := by
    rw [← List.isPrefixOf_iff_prefix]
    exact h
  obtain ⟨t, ht⟩ := hpre
  have ht2 : pyStrip l = '<' :: (" HTTP/".data ++ t) := by rw [← ht]; rfl
  rw [parseCurlLine]
  dsimp only
  rw [if_neg (by
    rw [ht2]
    rintro (hx | hx | hx | hx)
    · exact List.noConfusion hx
    · injection hx with h1 h2
      exact absurd h1 (by decide)
    · injection hx with h1 h2
      exact nomatch h2
    · injection hx with h1 h2
      exact absurd h1 (by decide))]
  rw [if_neg (by rw [ht2]; intro hx; exact nomatch hx)]
  rw [if_neg (by rw [ht2]; intro hx; exact nomatch hx)]
  rw [if_pos h]
  exact ⟨rfl, rfl⟩

/-- C7 counterexample trace: a 302 block with a `Location` header followed
by a 200 block with a `Content-Type` header. -/
def c7trace : List Char :=
  ("< HTTP/1.1 302 Found\n< Location: /next\n< HTTP/1.1 200 OK\n"
    ++ "< Content-Type: text/html\nbody").data

/-- C7 counterexample: on the redirect trace the last status line wins
(200), but the header map also retains `location` from the 302 block: it
does not reflect only the header lines after the final status line. -/
theorem C7_counterexample :
    (parse_curl_output c7trace).1 = 200
    ∧ (parse_curl_output c7trace).2.2.1
        = [("location", "/next"), ("content-type", "text/html")] :=
  ⟨rfl, rfl⟩

/-- C7 (amended): a `< HTTP/` line resets the tracked status code and
text, so over any trace the status of the last status line wins; the
header map, however, accumulates across all blocks (see the
counterexample) rather than reflecting only the final block. -/
theorem C7_last_status_wins (pre post : List (List Char)) (s : List Char)
    (hs : "< HTTP/".data.isPrefixOf (pyStrip s) = true)
    (hpost : ∀ l ∈ post, "< HTTP/".data.isPrefixOf (pyStrip l) = false) :
    (parseCurlLines (pre ++ s :: post)).status_code = (statusFromLine (pyStrip s)).1
    ∧ (parseCurlLines (pre ++ s :: post)).status_text = (statusFromLine (pyStrip s)).2 := by
  rw [parseCurlLines, List.foldl_append, List.foldl_cons]
  have h1 := parseCurlLine_statusline (List.foldl parseCurlLine ⟨none, "", [], []⟩ pre) s hs
  have h2 := parseCurlLines_go_status post
    (parseCurlLine (List.foldl parseCurlLine ⟨none, "", [], []⟩ pre) s) hpost
  exact ⟨h2.1.trans h1.1, h2.2.trans h1.2⟩

/-- Witness for the amended C7 theorem on the redirect trace. -/
theorem C7_last_status_wins_witness :
    (parseCurlLines (["< HTTP/1.1 302 Found".data, "< Location: /next".data]
      ++ "< HTTP/1.1 200 OK".data
        :: ["< Content-Type: text/html".data, "body".data])).status_code = some 200 :=
  (C7_last_status_wins ["< HTTP/1.1 302 Found".data, "< Location: /next".data]
    ["< Content-Type: text/html".data, "body".data]
    "< HTTP/1.1 200 OK".data (by decide) (by decide)).1.trans (by decide)

/-- C8 counterexample: output with a response-header line but no status
line parses to status 204 with a nonempty header map, refuting the
claimed empty map. -/
theorem C8_counterexample :
    (∀ l ∈ splitLines "< Content-Type: text/plain\nhello".data,
      "< HTTP/".data.isPrefixOf (pyStrip l) = false)
    ∧ (parse_curl_output "< Content-Type: text/plain\nhello".data).1 = 204
    ∧ (parse_curl_output "< Content-Type: text/plain\nhello".data).2.2.1
        = [("content-type", "text/plain")] :=
  ⟨by decide, rfl, rfl⟩

/-- C8 (amended): when no line of the output is a status line the parsed
status code defaults to 204 (the header map is the fold of the
response-header lines present, which need not be empty). -/
theorem C8_no_status_default_204 (output : List Char)
    (h : ∀ l ∈ splitLines output, "< HTTP/".data.isPrefixOf (pyStrip l) = false) :
    (parse_curl_output output).1 = 204 := by
  have hst := parseCurlLines_go_status (splitLines output) ⟨none, "", [], []⟩ h
  rw [parse_curl_output]
  dsimp only
  rw [parseCurlLines, hst.1]
  rfl

/-- Witness for the amended C8 theorem on a status-line-free trace. -/
theorem C8_no_status_default_204_witness :
    (parse_curl_output "< Content-Type: text/plain\nhello".data).1 = 204 :=
  C8_no_status_default_204 "< Content-Type: text/plain\nhello".data (by decide)

set_option maxRecDepth 10000 in
/-- C10: identity is sensitive to header-name casing: a concrete pair of
requests whose hash-relevant headers agree as a case-insensitive map
nevertheless computes two different identity names, because the hash
covers the original casing. -/
theorem C10_identity_casing_sensitive :
    c10reqA.headers.map (fun p => (lowerStr p.1, p.2))
      = c10reqB.headers.map (fun p => (lowerStr p.1, p.2))
    ∧ identityName false c10reqA ≠ identityName false c10reqB :=
  ⟨by decide, by decide⟩

/-! ### The per-name transaction queue: drafts, inbox, sent -/

/-- Lookup of a key in a JSON object (objects built by `dict` have unique
keys). -/
def jget : Json → String → Option Json
| .obj kvs, k => (kvs.find? (fun p => p.1 == k)).map (fun p => p.2)
| _, _ => none

/-- `response_data.get('response', \x7b\x7d)`. -/
def responseInfoOf (artifact : Json) : Json := (jget artifact "response").getD (.obj [])

/-- `response_info.get('status_code')` of a sent artifact, for the integer
status codes the server writes (`None`, i.e. JSON null, and absence both
give `None`). -/
def statusCodeOf (artifact : Json) : Option Int :=
  match jget (responseInfoOf artifact) "status_code" with
  | some (.num m 0) => some m
  | _ => none

/-- `response_info.get('status_code', 500)` used when the client loads a
sent record after waiting. -/
def clientStatus (artifact : Json) : Json :=
  (jget (responseInfoOf artifact) "status_code").getD (.num 500 0)

/-- `should_use_cache`: permissive mode replays any sent record with a
present status code; picky (`--cache-picky`) mode replays only GET or
POST with a truthy status code in 200..299. -/
def should_use_cache (picky : Bool) (method : String) (status_code : Option Int) : Bool :=
  if picky then
    decide (method = "GET" ∨ method = "POST")
      && (match status_code with
          | some sc => decide (¬sc = 0) && decide (200 ≤ sc) && decide (sc ≤ 299)
          | none => false)
  else decide (¬status_code = none)

/-- `dict(pairs)` over string pairs. -/
def dictOf (hs : List (String × String)) : List (String × String) :=
  hs.foldl (fun m p => hdrInsert m p.1 p.2) []

/-- The draft artifact: `request_core` plus `stats.created_at`, the full
original header dict, and the filtered server headers. -/
def draftArtifact (picky : Bool) (r : ClientRequest) : Json :=
  match request_core picky r with
  | .obj kvs => .obj (kvs
      ++ [("stats", .obj [("created_at", .str r.now)]),
          ("original_headers", .obj ((dictOf r.headers).map (fun p => (p.1, Json.str p.2)))),
          ("server_headers", .obj ((serverHeaders r.headers).map (fun p => (p.1, Json.str p.2))))])
  | v => v

/-- The minimal error artifact written to sent on any processing
exception. -/
def errorArtifact (msg : String) : Json := .obj [("error", .str msg)]

/-- The success artifact: the claimed request data with the `response`
object added and the (timing-dependent) `stats` value updated. -/
def completedArtifact (reqData resp stats : Json) : Json :=
  match reqData with
  | .obj kvs => .obj (objInsert (objInsert kvs "response" resp) "stats" stats)
  | v => v

/-- The files observable for one identity name: at most one artifact per
store. -/
structure QueueState where
  draft : Option Json
  inbox : Option Json
  sent : Option Json

/-- Number of stores in which the name is live. -/
def liveCount (st : QueueState) : Nat :=
  (if st.draft.isSome then 1 else 0) + (if st.inbox.isSome then 1 else 0)
    + (if st.sent.isSome then 1 else 0)

/-- The client submission step on a cache miss or absent sent record:
`handle_request` writes the draft artifact; on a cache hit it replays the
sent record and writes nothing. -/
def clientSubmit (picky : Bool) (r : ClientRequest) (st : QueueState) : QueueState :=
  match st.sent with
  | some artifact =>
    if should_use_cache picky r.method (statusCodeOf artifact) then st
    else { st with draft := some (draftArtifact picky r) }
  | none => { st with draft := some (draftArtifact picky r) }

/-- The observable instant right after the server claims a draft by
moving it from drafts to inbox (`shutil.move`); with no draft the move
fails and nothing changes yet. -/
def claimedState (st : QueueState) : QueueState :=
  match st.draft with
  | some d => { st with draft := none, inbox := some d }
  | none => st

/-- `process_server_request` as a state function, parameterized by the
forwarding outcome (`.ok` carries the serialized response object, built
into the artifact with the timing `stats`; `.error` carries `str(e)`) and
by the message of the exception raised when the draft has vanished before
the claim. Success writes the completed artifact to sent; any exception
writes the error artifact to sent; the `finally` block always deletes the
inbox file. -/
def processServerRequest (st : QueueState) (raceMsg : String)
    (forward : Except String Json) (stats : Json) : QueueState :=
  match st.draft with
  | some d =>
    { draft := none, inbox := none,
      sent := some (match forward with
        | .ok resp => completedArtifact d resp stats
        | .error msg => errorArtifact msg) }
  | none => { draft := none, inbox := none, sent := some (errorArtifact raceMsg) }

/-- The C3 request used in the resubmission trace. -/
def c3req : ClientRequest := ⟨"GET", "api", "x", "", [], [], "t0"⟩

/-- The C3 resubmission trace: submit a fresh request, let the server fail
to forward it (writing a non-reusable error artifact to sent), then submit
the identical request again. -/
def c3state : QueueState :=
  clientSubmit false c3req
    (processServerRequest (clientSubmit false c3req ⟨none, none, none⟩)
      "race" (.error "connection refused") .null)

/-- C3 counterexample: after a failed transaction, resubmitting the same
request leaves the identity name live in the draft store and the sent
store at once: the claimed mutual exclusion fails at an observable
instant. -/
theorem C3_counterexample :
    c3state.draft.isSome = true ∧ c3state.sent.isSome = true
    ∧ liveCount c3state = 2 :=
  ⟨rfl, rfl, rfl⟩

/-- C3 (amended): for a fresh identity name (no prior sent record), at
every observable instant of one transaction — after submission, after the
claim, and after completion — the name is live in at most one of the
three stores. The exclusion can fail only when a non-reusable sent record
from an earlier transaction persists (see the counterexample). -/
theorem C3_fresh_name_exclusive (picky : Bool) (r : ClientRequest) (raceMsg : String)
    (forward : Except String Json) (stats : Json) :
    liveCount (clientSubmit picky r ⟨none, none, none⟩) ≤ 1
    ∧ liveCount (claimedState (clientSubmit picky r ⟨none, none, none⟩)) ≤ 1
    ∧ liveCount (processServerRequest (clientSubmit picky r ⟨none, none, none⟩)
        raceMsg forward stats) ≤ 1 := by
  refine ⟨by simp [clientSubmit, liveCount], by simp [clientSubmit, claimedState, liveCount], ?_⟩
  cases forward <;> simp [clientSubmit, processServerRequest, liveCount]

/-- C4: whatever the initial state and the forwarding outcome — success,
forwarding exception, or a draft that vanished before the claim — the
inbox artifact no longer exists when `process_server_request` returns. -/
theorem C4_inbox_always_cleared (st : QueueState) (raceMsg : String)
    (forward : Except String Json) (stats : Json) :
    (processServerRequest st raceMsg forward stats).inbox = none := by
  cases h : st.draft <;> simp [processServerRequest, h]

/-- C5: the cache decision. Permissive mode replays exactly the sent
records with a present status code; picky mode replays exactly GET or
POST with a status in 200..299; a PUT with status 200 is never replayed
under picky mode but always under permissive mode. -/
theorem C5_cache_policy (picky : Bool) (method : String) (sc : Option Int) :
    (should_use_cache false method sc = true ↔ ¬sc = none)
    ∧ (should_use_cache true method sc = true ↔
        ((method = "GET" ∨ method = "POST") ∧ ∃ n, sc = some n ∧ 200 ≤ n ∧ n ≤ 299))
    ∧ should_use_cache true "PUT" (some 200) = false
    ∧ should_use_cache false "PUT" (some 200) = true := by
  refine ⟨by simp [should_use_cache], ?_, by decide, by decide⟩
  cases sc with
  | none => simp [should_use_cache]
  | some n =>
    simp only [should_use_cache, if_pos, Bool.and_eq_true, decide_eq_true_eq]
    constructor
    · rintro ⟨hm, ⟨h0, h1⟩, h2⟩
      exact ⟨hm, n, rfl, h1, h2⟩
    · rintro ⟨hm, n2, hn, h1, h2⟩
      obtain rfl := Option.some.inj hn
      exact ⟨hm, ⟨by omega, h1⟩, h2⟩

/-- C6: any exception after a successful claim makes the server write
exactly the minimal `error` artifact to sent — no `response` key, no
`status_code` — and a client loading such a record falls back to the
default failure status 500. -/
theorem C6_error_artifact_default_500 (st : QueueState) (d : Json)
    (hd : st.draft = some d) (raceMsg msg : String) (stats : Json) :
    (processServerRequest st raceMsg (.error msg) stats).sent = some (errorArtifact msg)
    ∧ jget (errorArtifact msg) "response" = none
    ∧ jget (errorArtifact msg) "status_code" = none
    ∧ clientStatus (errorArtifact msg) = .num 500 0 := by
  refine ⟨?_, rfl, rfl, rfl⟩
  rw [processServerRequest, hd]

/-- Witness for C6 on a concrete claimed draft and a forwarding error. -/
theorem C6_error_artifact_default_500_witness :
    (processServerRequest ⟨some (.obj []), none, none⟩ "r"
        (.error "backend unreachable") .null).sent
      = some (errorArtifact "backend unreachable")
    ∧ jget (errorArtifact "backend unreachable") "response" = none
    ∧ jget (errorArtifact "backend unreachable") "status_code" = none
    ∧ clientStatus (errorArtifact "backend unreachable") = .num 500 0 :=
  C6_error_artifact_default_500 ⟨some (.obj []), none, none⟩ (.obj []) rfl
    "r" "backend unreachable" .null

/-- C9 counterexample: with the draft vanished before the claim and no
other file present, the server is not silent: the sent store afterwards
holds the error artifact for the failed move. -/
theorem C9_counterexample :
    (processServerRequest ⟨none, none, none⟩ "No such file or directory"
        (.ok (.obj [])) .null).sent
      = some (errorArtifact "No such file or directory")
    ∧ ¬(processServerRequest ⟨none, none, none⟩ "No such file or directory"
        (.ok (.obj [])) .null).sent = none :=
  ⟨rfl, fun h => Option.noConfusion h⟩

/-- C9 (amended): when the draft has vanished before the claim, the
server does not skip silently: independently of what forwarding would
have produced, it ends with the move failure's error artifact in the sent
store and nothing elsewhere. -/
theorem C9_claim_race_writes_error (st : QueueState) (h : st.draft = none)
    (raceMsg : String) (forward : Except String Json) (stats : Json) :
    processServerRequest st raceMsg forward stats
      = ⟨none, none, some (errorArtifact raceMsg)⟩ := by
  rw [processServerRequest, h]

/-- Witness for the amended C9 theorem. -/
theorem C9_claim_race_writes_error_witness :
    processServerRequest ⟨none, none, none⟩ "gone" (.ok .null) .null
      = ⟨none, none, some (errorArtifact "gone")⟩ :=
  C9_claim_race_writes_error ⟨none, none, none⟩ rfl "gone" (.ok .null) .null

end NMP
